import Mathlib

/-!
Verification of the sharded currency store (`src/utils/currency.py`).

The store keeps an in-memory cache of per-entity entries
`(balance, last_daily_yyyymmdd, last_activity_timestamp)`, backed by
per-shard JSON files.  The embedding below translates the module
constants, the pure helpers (`_shard_id`, `_date_str_to_int`,
`_date_int_to_str`, `_read_shard_file`, `_write_one_shard_worker`), the
flush admission loop of `_flush_to_file`, the eviction pass
`_evict_inactive`, and the five public ledger operations into Lean,
with explicit state passing for the cache and for the file system.

Modelling conventions:
- Python dicts become association lists whose update keeps the position
  of an existing key and appends a fresh key at the end (Python
  insertion order).  JSON string keys `str(qq)` are modelled by the
  integer `qq` itself (the conversion is injective).
- Timestamps (`time.time()`) are modelled as integers; only order and
  differences of timestamps matter to the code.
- Python `int(s)` applied to the dash-free components produced by
  `s.split("-")` is modelled for ASCII strings: optional surrounding
  whitespace (the ten ASCII characters Python strips), an optional
  leading plus sign, then ASCII digits with single underscores allowed
  between digits (PEP 515); such components can never carry a minus
  sign, so the result is a natural number.  Non-ASCII decimal digits,
  which Python also accepts, are outside the model, so theorems about
  malformed date strings are scoped to all-ASCII inputs.
- A shard file that is missing, or whose content raises
  `json.JSONDecodeError`, is modelled as `none`; both cases are mapped
  by `_read_shard_file` to empty maps.  A separate JSON-level model
  (`read_shard_file_json`) captures the raw behaviour of
  `_read_shard_file` on arbitrary decoded JSON values, where
  `data.setdefault` raises `AttributeError` on a non-object.
- The flush worker pool is modelled by an outcome oracle per shard.
  The faithful model (`WriteOutcome` / `flush_to_file_outcomes`)
  records, for a failing worker, the file state its failed attempt
  leaves behind: `_write_shard_file` opens with mode "w" (truncate in
  place), so a failure may leave the previous content (raised before
  the open), a truncated or partially written file (raised during
  `json.dump`; undecodable content is `none`), or anything in between.
  A simplified boolean oracle (`flush_to_file`) specialises this to
  failures that leave the file unchanged; it is used only where the
  failed shard's file content is irrelevant to the claim.  In both
  models the collection loop `for f in as_completed: f.result()`
  re-raises after all submitted workers ran.
-/

namespace Currency

/-! ### Module constants -/

def NUM_SHARDS : Nat := 32

def INACTIVE_TTL : Int := 300

def MAX_CACHE_SIZE : Nat := 250000

def MAX_BYTES_PER_ROUND : Nat := 70 * 1024 * 1024

def MAX_BYTES_PER_FILE : Nat := 70 * 1024 * 1024

def BYTES_PER_USER_EST : Nat := 55

/-! ### Data model -/

/-- One cached record: `(balance, last_daily_yyyymmdd, last_activity_timestamp)`. -/
structure Entry where
  balance : Int
  last_daily : Nat
  last_activity : Int
deriving DecidableEq

/-- The in-memory cache `self._cache`, a Python dict in insertion order. -/
abbrev Cache := List (Int × Entry)

/-- Decoded, well-shaped content of one shard file: the two maps
`balances` and `last_daily` (keys `str(qq)` modelled by `qq`). -/
structure ShardData where
  balances : List (Int × Int)
  last_daily : List (Int × List Char)
deriving DecidableEq

/-- The file system: for each shard id, `none` means the file is
missing or not decodable as JSON. -/
abbrev Files := Nat → Option ShardData

/-! ### Python dict operations on association lists -/

/-- `m[k] = v` on a Python dict: replace in place, or append a new key. -/
def dictSet {α : Type} (m : List (Int × α)) (k : Int) (v : α) : List (Int × α) :=
  match m with
  | [] => [(k, v)]
  | (k0, v0) :: rest => if k0 = k then (k, v) :: rest else (k0, v0) :: dictSet rest k v

/-- `m.pop(k, None)` on a Python dict: drop the key if present. -/
def dictPop {α : Type} (m : List (Int × α)) (k : Int) : List (Int × α) :=
  m.filter (fun p => decide (p.1 ≠ k))

/-! ### Python `int()` and the date helpers -/

/-- Value of one ASCII digit character. -/
def digit_val (c : Char) : Option Nat :=
  if ('0' ≤ c ∧ c ≤ '9') then some (c.toNat - '0'.toNat) else none

mutual

/-- Accumulating parse of the digit run of Python `int()`: ASCII
digits, with a single underscore allowed between two digits (PEP 515);
a trailing or doubled underscore fails, as does any other
non-digit. -/
def parse_digits_from (acc : Nat) : List Char → Option Nat
  | [] => some acc
  | c :: rest =>
    match digit_val c with
    | some d => parse_digits_from (acc * 10 + d) rest
    | none => if c = '_' then parse_after_underscore acc rest else none

/-- After an underscore a digit must follow immediately. -/
def parse_after_underscore (acc : Nat) : List Char → Option Nat
  | [] => none
  | c :: rest =>
    match digit_val c with
    | some d => parse_digits_from (acc * 10 + d) rest
    | none => none

end

/-- The digit part of Python `int()`: non-empty, must start with a
digit, then `parse_digits_from` (so underscores only between digits). -/
def parse_digits (cs : List Char) : Option Nat :=
  match cs with
  | [] => none
  | c :: _ =>
    match digit_val c with
    | some _ => parse_digits_from 0 cs
    | none => none

/-- The ten ASCII characters Python treats as whitespace when stripping
around `int()` input: tab, newline, vertical tab, form feed, carriage
return, the four separator controls 0x1C-0x1F, and space. -/
def is_py_space (c : Char) : Bool :=
  c == '\t' || c == '\n' || c == '\u000B' || c == '\u000C' || c == '\r' ||
  c == '\u001C' || c == '\u001D' || c == '\u001E' || c == '\u001F' || c == ' '

/-- Strip leading and trailing whitespace (Python `int` ignores
surrounding whitespace). -/
def strip_spaces (cs : List Char) : List Char :=
  ((cs.dropWhile is_py_space).reverse.dropWhile is_py_space).reverse

/-- Python `int(s)` for an ASCII string that contains no minus sign
(the components produced by `split("-")` never do): optional
surrounding whitespace, optional leading plus, then ASCII digits with
underscore separators.  Non-ASCII decimal digits are outside the
model. -/
def py_int_nonneg (cs : List Char) : Option Nat :=
  match strip_spaces cs with
  | '+' :: rest => parse_digits rest
  | t => parse_digits t

/-- Python `s.split("-")` on character lists. -/
def split_dash (cs : List Char) : List (List Char) :=
  match cs with
  | [] => [[]]
  | c :: rest =>
    let r := split_dash rest
    if c = '-' then [] :: r
    else (c :: r.headD []) :: r.tail

/-- Decimal digits of `n`, most significant first, prepended to `acc`. -/
def nat_to_chars_go (n : Nat) (acc : List Char) : List Char :=
  if n < 10 then Char.ofNat (48 + n) :: acc
  else nat_to_chars_go (n / 10) (Char.ofNat (48 + n % 10) :: acc)
termination_by n
decreasing_by
  exact Nat.div_lt_self (by omega) (by omega)

/-- Decimal representation of `n` (Python `str(n)` / `f-string` for a
natural number). -/
def nat_to_chars (n : Nat) : List Char := nat_to_chars_go n []

/-- Python format `f"{n:02d}"` for `n ≥ 0`: pad to two digits. -/
def pad2 (n : Nat) : List Char :=
  if n < 10 then '0' :: nat_to_chars n else nat_to_chars n

/-- `_date_str_to_int`: `"YYYY-MM-DD" -> YYYYMMDD`, `None` or
anything malformed `-> 0`.  The `try/except` around the `int()` calls
is modelled by the failure cases of `py_int_nonneg`. -/
def date_str_to_int (s : Option (List Char)) : Nat :=
  match s with
  | none => 0
  | some cs =>
    if cs.isEmpty then 0
    else
      match split_dash cs with
      | [p0, p1, p2] =>
        match py_int_nonneg p0, py_int_nonneg p1, py_int_nonneg p2 with
        | some a, some b, some c => a * 10000 + b * 100 + c
        | _, _, _ => 0
      | _ => 0

/-- `_date_int_to_str`: `YYYYMMDD -> "YYYY-MM-DD"`, `i <= 0 -> None`
(the stored date is a natural number, so `i <= 0` means `i = 0`). -/
def date_int_to_str (i : Nat) : Option (List Char) :=
  if i = 0 then none
  else
    some (nat_to_chars (i / 10000) ++ '-' :: pad2 ((i % 10000) / 100)
      ++ '-' :: pad2 (i % 100))

/-! ### Shard routing and the persistence codec -/

/-- `_shard_id(qq) = int(qq) % NUM_SHARDS` (Python `%` on a positive
modulus is the always-non-negative `emod`). -/
def shard_id (qq : Int) : Nat := (qq % (NUM_SHARDS : Int)).toNat

/-- `_read_shard_file` on the well-shaped model: a missing or
undecodable file yields empty maps; `setdefault` makes both keys
present, which `ShardData` guarantees by construction. -/
def read_shard_file (file : Option ShardData) : ShardData :=
  file.getD { balances := [], last_daily := [] }

/-- One iteration of the merge loop in `_write_one_shard_worker`:
`data["balances"][sk] = balance`; then store the date string, or pop
the key when the entry has no claim date. -/
def merge_entry (d : ShardData) (p : Int × Entry) : ShardData :=
  let d1 : ShardData := { d with balances := dictSet d.balances p.1 p.2.balance }
  match date_int_to_str p.2.last_daily with
  | some ds => { d1 with last_daily := dictSet d1.last_daily p.1 ds }
  | none => { d1 with last_daily := dictPop d1.last_daily p.1 }

/-- The merge step of `_write_one_shard_worker`: overlay the flushed
entries onto the current on-disk maps. -/
def write_one_shard_worker (qq_entries : Cache) (data : ShardData) : ShardData :=
  qq_entries.foldl merge_entry data

/-- Replace the stored file of one shard. -/
def update_files (files : Files) (sid : Nat) (d : ShardData) : Files :=
  fun k => if k = sid then some d else files k

/-- A complete successful worker run for one shard: read the shard
file, merge the flushed entries, write the union back. -/
def write_shard (files : Files) (sid : Nat) (qq_entries : Cache) : Files :=
  update_files files sid
    (write_one_shard_worker qq_entries (read_shard_file (files sid)))

/-! ### Flush admission (`_flush_to_file`) -/

/-- `by_shard[sid]`: the cached entries that live in shard `sid`. -/
def shard_entries (cache : Cache) (sid : Nat) : Cache :=
  cache.filter (fun p => decide (shard_id p.1 = sid))

/-- `sorted(by_shard.keys())`: the shard indices that hold at least one
cached entry, in ascending order. -/
def dirty_shards (cache : Cache) : List Nat :=
  (List.range NUM_SHARDS).filter (fun sid => decide (shard_entries cache sid ≠ []))

/-- `est = len(qq_entries) * BYTES_PER_USER_EST * 2`, capped at
`MAX_BYTES_PER_FILE`. -/
def est_bytes (n : Nat) : Nat :=
  let est := n * BYTES_PER_USER_EST * 2
  if est > MAX_BYTES_PER_FILE then MAX_BYTES_PER_FILE else est

/-- The admission loop of `_flush_to_file`: walk the sorted dirty
shards, stop (`break`) once the running byte total reaches the round
budget or the next estimate would exceed it while something was
already admitted. -/
def admit_go (cache : Cache) : List Nat → Nat → List Nat
  | [], _ => []
  | sid :: rest, bytes =>
    if bytes ≥ MAX_BYTES_PER_ROUND then []
    else
      let est := est_bytes (shard_entries cache sid).length
      if bytes + est > MAX_BYTES_PER_ROUND ∧ 0 < bytes then []
      else sid :: admit_go cache rest (bytes + est)

/-- The shards admitted into this round's flush set. -/
def admit_shards (cache : Cache) : List Nat :=
  admit_go cache (dirty_shards cache) 0

/-- `_flush_to_file` with a simplified boolean failure oracle: submit
one worker per admitted shard (every submitted worker runs), collect
results — the boolean records whether every worker succeeded, i.e.
whether `for f in as_completed: f.result()` returned without raising.
This variant specialises a failure to one that leaves the file
unchanged (an exception raised before the truncating open); see
`flush_to_file_outcomes` below for the general failure model.  It is
used only where the failed shard's file content does not matter. -/
def flush_to_file (writeOk : Nat → Bool) (files : Files) (cache : Cache) :
    Files × Bool :=
  let tasks := admit_shards cache
  (tasks.foldl
      (fun fs sid =>
        if writeOk sid then write_shard fs sid (shard_entries cache sid) else fs)
      files,
    tasks.all writeOk)

/-- Outcome of one shard worker attempt.  `_write_shard_file` opens
with mode "w", truncating in place, so a worker that raises an I/O
error leaves its shard file in an indeterminate state: the previous
content (failure before the open), a truncated or undecodable file
(`none`), or any partial content; `failed left` records the file state
the failed attempt leaves behind. -/
inductive WriteOutcome where
  | ok
  | failed (left : Option ShardData)
deriving DecidableEq

/-- Whether the worker finished without raising. -/
def WriteOutcome.isOk : WriteOutcome → Bool
  | .ok => true
  | .failed _ => false

/-- Replace the stored file of one shard with an arbitrary state
(missing/undecodable when `f = none`). -/
def set_file (files : Files) (sid : Nat) (f : Option ShardData) : Files :=
  fun k => if k = sid then f else files k

/-- `_flush_to_file` with the faithful failure model: every admitted
shard's worker runs; a successful worker performs read-merge-write, a
failing worker leaves behind whatever its interrupted attempt produced;
the boolean records whether the result-collection loop
`for f in as_completed: f.result()` finished without re-raising. -/
def flush_to_file_outcomes (outcome : Nat → WriteOutcome) (files : Files)
    (cache : Cache) : Files × Bool :=
  let tasks := admit_shards cache
  (tasks.foldl
      (fun fs sid =>
        match outcome sid with
        | .ok => write_shard fs sid (shard_entries cache sid)
        | .failed left => set_file fs sid left)
      files,
    tasks.all (fun sid => (outcome sid).isOk))

/-! ### Eviction (`_evict_inactive`) -/

/-- `_evict_inactive`: drop every entry idle for at least
`INACTIVE_TTL`; if the cache still exceeds `MAX_CACHE_SIZE`, sort by
`last_activity` and delete the least recently active surplus. -/
def evict_inactive (now : Int) (cache : Cache) : Cache :=
  let kept := cache.filter (fun p => decide (now - p.2.last_activity < INACTIVE_TTL))
  if kept.length ≤ MAX_CACHE_SIZE then kept
  else
    let ordered := kept.mergeSort (fun a b => decide (a.2.last_activity ≤ b.2.last_activity))
    let removed := (ordered.take (kept.length - MAX_CACHE_SIZE)).map Prod.fst
    kept.filter (fun p => decide (p.1 ∉ removed))

/-- `_timer_work`: flush, then evict.  The boolean is `false` when a
worker raised, in which case `_evict_inactive` is never reached and
the exception escapes `_timer_work`. -/
def timer_work (writeOk : Nat → Bool) (now : Int) (files : Files) (cache : Cache) :
    (Files × Cache) × Bool :=
  let fb := flush_to_file writeOk files cache
  if fb.2 then ((fb.1, evict_inactive now cache), true) else ((fb.1, cache), false)

/-- One iteration of the scheduler loop in `_start_flush_timer`: the
bare `try/except: pass` swallows whatever `_timer_work` raised and the
loop continues with the resulting state. -/
def scheduler_step (writeOk : Nat → Bool) (now : Int) (s : Files × Cache) :
    Files × Cache :=
  (timer_work writeOk now s.1 s.2).1

/-- `_timer_work` over the faithful failure model: flush, then evict;
when a worker raised, `_evict_inactive` is never reached and the
exception escapes `_timer_work`. -/
def timer_work_outcomes (outcome : Nat → WriteOutcome) (now : Int) (files : Files)
    (cache : Cache) : (Files × Cache) × Bool :=
  let fb := flush_to_file_outcomes outcome files cache
  if fb.2 then ((fb.1, evict_inactive now cache), true) else ((fb.1, cache), false)

/-- One scheduler-loop iteration over the faithful failure model: the
bare `try/except: pass` swallows whatever `_timer_work` raised and the
loop continues with the resulting state. -/
def scheduler_step_outcomes (outcome : Nat → WriteOutcome) (now : Int)
    (s : Files × Cache) : Files × Cache :=
  (timer_work_outcomes outcome now s.1 s.2).1

/-! ### Public ledger operations -/

/-- `_load_from_file`: read the entity's shard, default balance `0`
and date `0`, stamp `last_activity = now`.  Note: the balance read
from the file is **not** clamped. -/
def load_from_file (files : Files) (now : Int) (qq : Int) (cache : Cache) : Cache :=
  let data := read_shard_file (files (shard_id qq))
  let balance := (data.balances.lookup qq).getD 0
  let last_daily := date_str_to_int (data.last_daily.lookup qq)
  dictSet cache qq { balance := balance, last_daily := last_daily, last_activity := now }

/-- The `if qq not in self._cache: self._load_from_file(qq)` pattern
shared by every public operation. -/
def ensure_loaded (files : Files) (now : Int) (qq : Int) (cache : Cache) : Cache :=
  if (cache.lookup qq).isSome then cache else load_from_file files now qq cache

/-- `_touch`: refresh `last_activity` of a resident entry. -/
def touch (now : Int) (qq : Int) (cache : Cache) : Cache :=
  match cache.lookup qq with
  | some e => dictSet cache qq { e with last_activity := now }
  | none => cache

/-- `get_currency`. -/
def get_currency (files : Files) (now : Int) (qq : Int) (cache : Cache) :
    Int × Cache :=
  let c1 := ensure_loaded files now qq cache
  let c2 := touch now qq c1
  (((c2.lookup qq).getD { balance := 0, last_daily := 0, last_activity := now }).balance,
    c2)

/-- `set_currency`: a negative amount is clamped to `0` before the
store. -/
def set_currency (files : Files) (now : Int) (qq : Int) (amount : Int)
    (cache : Cache) : Cache :=
  let amount := if amount < 0 then 0 else amount
  let c1 := ensure_loaded files now qq cache
  let e := (c1.lookup qq).getD { balance := 0, last_daily := 0, last_activity := now }
  dictSet c1 qq { balance := amount, last_daily := e.last_daily, last_activity := now }

/-- `add_currency`: stores and returns `max(0, balance + delta)`. -/
def add_currency (files : Files) (now : Int) (qq : Int) (delta : Int)
    (cache : Cache) : Int × Cache :=
  let c1 := ensure_loaded files now qq cache
  let e := (c1.lookup qq).getD { balance := 0, last_daily := 0, last_activity := now }
  let new_balance := max 0 (e.balance + delta)
  (new_balance,
    dictSet c1 qq { balance := new_balance, last_daily := e.last_daily, last_activity := now })

/-- `get_last_daily_date`. -/
def get_last_daily_date (files : Files) (now : Int) (qq : Int) (cache : Cache) :
    Option (List Char) × Cache :=
  let c1 := ensure_loaded files now qq cache
  let c2 := touch now qq c1
  (date_int_to_str
      ((c2.lookup qq).getD { balance := 0, last_daily := 0, last_activity := now }).last_daily,
    c2)

/-- `set_last_daily_date`: the incoming string is converted by
`date_str_to_int` (malformed strings become `0`). -/
def set_last_daily_date (files : Files) (now : Int) (qq : Int) (ds : List Char)
    (cache : Cache) : Cache :=
  let di := date_str_to_int (some ds)
  let c1 := ensure_loaded files now qq cache
  let e := (c1.lookup qq).getD { balance := 0, last_daily := 0, last_activity := now }
  dictSet c1 qq { balance := e.balance, last_daily := di, last_activity := now }

/-! ### Operation sequences -/

/-- Full engine state: the shard files and the cache. -/
structure StoreState where
  files : Files
  cache : Cache

/-- One API call or one timer round. -/
inductive Op where
  | get (qq : Int)
  | set (qq amount : Int)
  | add (qq delta : Int)
  | getDate (qq : Int)
  | setDate (qq : Int) (ds : List Char)
  | round (writeOk : Nat → Bool)

/-- Effect of one operation, performed at time `now`. -/
def step (now : Int) (s : StoreState) : Op → StoreState
  | .get qq => { s with cache := (get_currency s.files now qq s.cache).2 }
  | .set qq amount => { s with cache := set_currency s.files now qq amount s.cache }
  | .add qq delta => { s with cache := (add_currency s.files now qq delta s.cache).2 }
  | .getDate qq => { s with cache := (get_last_daily_date s.files now qq s.cache).2 }
  | .setDate qq ds => { s with cache := set_last_daily_date s.files now qq ds s.cache }
  | .round writeOk =>
    let t := scheduler_step writeOk now (s.files, s.cache)
    { files := t.1, cache := t.2 }

/-- Run a timed sequence of operations. -/
def run (s : StoreState) : List (Int × Op) → StoreState
  | [] => s
  | (now, op) :: rest => run (step now s op) rest

/-- Every cached balance is non-negative. -/
def CacheNonNeg (cache : Cache) : Prop := ∀ p ∈ cache, 0 ≤ p.2.balance

/-- Every balance stored in every shard file is non-negative. -/
def FilesNonNeg (files : Files) : Prop :=
  ∀ sid : Nat, ∀ q ∈ (read_shard_file (files sid)).balances, 0 ≤ q.2

/-- Non-negativity of the whole engine state. -/
def NonNeg (s : StoreState) : Prop := CacheNonNeg s.cache ∧ FilesNonNeg s.files

/-! ### JSON-level model of `_read_shard_file`

`_read_shard_file` catches only `FileNotFoundError` and
`json.JSONDecodeError`.  When the file decodes to a JSON value that is
not an object, the subsequent `data.setdefault("balances", dict())`
raises `AttributeError`, which propagates to the caller. -/

/-- Decoded JSON values. -/
inductive Json where
  | null
  | bool (b : Bool)
  | num (n : Int)
  | str (s : String)
  | arr (xs : List Json)
  | obj (fields : List (String × Json))

/-- State of one shard file as seen by `open` + `json.load`. -/
inductive JFile where
  | missing
  | badJson
  | good (v : Json)

/-- The Python exception that escapes `_read_shard_file`. -/
inductive PyErr where
  | attributeError
deriving DecidableEq

/-- `d.setdefault(k, dict())` on a JSON object's field list. -/
def json_setdefault (fields : List (String × Json)) (k : String) :
    List (String × Json) :=
  if (fields.lookup k).isSome then fields else fields ++ [(k, Json.obj [])]

/-- `_read_shard_file`, faithfully: the two caught exceptions yield
`{"balances": {}, "last_daily": {}}`; a decoded non-object makes
`setdefault` raise `AttributeError`. -/
def read_shard_file_json : JFile → Except PyErr Json
  | .missing => .ok (Json.obj (json_setdefault (json_setdefault [] "balances") "last_daily"))
  | .badJson => .ok (Json.obj (json_setdefault (json_setdefault [] "balances") "last_daily"))
  | .good (Json.obj fields) =>
    .ok (Json.obj (json_setdefault (json_setdefault fields "balances") "last_daily"))
  | .good _ => .error PyErr.attributeError


/-! ## Lemmas about the dict model -/

theorem lookup_cons {α : Type} (k k0 : Int) (v0 : α) (rest : List (Int × α)) :
    List.lookup k ((k0, v0) :: rest) = if k = k0 then some v0 else List.lookup k rest := by
  by_cases h : k = k0
  · subst h; simp [List.lookup]
  · simp [List.lookup, beq_eq_false_iff_ne.mpr h, h]

theorem lookup_dictSet_self {α : Type} (m : List (Int × α)) (k : Int) (v : α) :
    (dictSet m k v).lookup k = some v := by
  induction m with
  | nil => simp [dictSet, lookup_cons]
  | cons p rest ih =>
    obtain ⟨k0, v0⟩ := p
    by_cases h : k0 = k
    · simp [dictSet, h, lookup_cons]
    · simp [dictSet, h, lookup_cons, Ne.symm h, ih]

theorem lookup_dictSet_ne {α : Type} (m : List (Int × α)) (k k' : Int) (v : α)
    (h : k' ≠ k) : (dictSet m k v).lookup k' = m.lookup k' := by
  induction m with
  | nil => simp [dictSet, lookup_cons, h]
  | cons p rest ih =>
    obtain ⟨k0, v0⟩ := p
    by_cases hk : k0 = k
    · subst hk
      simp [dictSet, lookup_cons, h]
    · simp [dictSet, hk, lookup_cons, ih]

theorem mem_dictSet {α : Type} (m : List (Int × α)) (k : Int) (v : α) :
    ∀ p ∈ dictSet m k v, p = (k, v) ∨ p ∈ m := by
  induction m with
  | nil =>
    intro p hp
    simpa [dictSet] using hp
  | cons q rest ih =>
    obtain ⟨k0, v0⟩ := q
    intro p hp
    by_cases hk : k0 = k
    · rw [show dictSet ((k0, v0) :: rest) k v = (k, v) :: rest by simp [dictSet, hk]] at hp
      rcases List.mem_cons.mp hp with hp | hp
      · exact Or.inl hp
      · exact Or.inr (List.mem_cons_of_mem _ hp)
    · rw [show dictSet ((k0, v0) :: rest) k v = (k0, v0) :: dictSet rest k v by
          simp [dictSet, hk]] at hp
      rcases List.mem_cons.mp hp with hp | hp
      · exact Or.inr (by simp [hp])
      · rcases ih p hp with h' | h'
        · exact Or.inl h'
        · exact Or.inr (List.mem_cons_of_mem _ h')

theorem lookup_dictPop_self {α : Type} (m : List (Int × α)) (k : Int) :
    (dictPop m k).lookup k = none := by
  induction m with
  | nil => simp [dictPop]
  | cons p rest ih =>
    obtain ⟨k0, v0⟩ := p
    by_cases h : k0 = k
    · simpa [dictPop, List.filter_cons, h] using ih
    · simpa [dictPop, List.filter_cons, h, lookup_cons, Ne.symm h] using ih

theorem lookup_dictPop_ne {α : Type} (m : List (Int × α)) (k k' : Int)
    (h : k' ≠ k) : (dictPop m k).lookup k' = m.lookup k' := by
  induction m with
  | nil => simp [dictPop]
  | cons p rest ih =>
    obtain ⟨k0, v0⟩ := p
    by_cases hk : k0 = k
    · subst hk
      simpa [dictPop, List.filter_cons, lookup_cons, h] using ih
    · have hstep : dictPop ((k0, v0) :: rest) k = (k0, v0) :: dictPop rest k := by
        simp [dictPop, List.filter_cons, hk]
      rw [hstep, lookup_cons, lookup_cons, ih]

theorem lookup_mem {α : Type} {m : List (Int × α)} {k : Int} {v : α}
    (h : m.lookup k = some v) : (k, v) ∈ m := by
  induction m with
  | nil => simp [List.lookup] at h
  | cons p rest ih =>
    obtain ⟨k0, v0⟩ := p
    rw [lookup_cons] at h
    by_cases hk : k = k0
    · simp only [if_pos hk] at h
      simp [hk, ← Option.some_inj.mp h]
    · simp only [if_neg hk] at h
      exact List.mem_cons_of_mem _ (ih h)

theorem lookup_eq_none_iff {α : Type} {m : List (Int × α)} {k : Int} :
    m.lookup k = none ↔ ∀ p ∈ m, p.1 ≠ k := by
  induction m with
  | nil => simp [List.lookup]
  | cons p rest ih =>
    obtain ⟨k0, v0⟩ := p
    rw [lookup_cons]
    by_cases hk : k = k0
    · subst hk
      rw [if_pos rfl]
      constructor
      · intro h
        simp at h
      · intro h
        exact absurd rfl (h (k, v0) (List.mem_cons_self _ _))
    · rw [if_neg hk, ih]
      constructor
      · intro h q hq
        rcases List.mem_cons.mp hq with rfl | hq'
        · exact fun hc => hk hc.symm
        · exact h q hq'
      · intro h q hq
        exact h q (List.mem_cons_of_mem _ hq)

theorem lookup_filter {α : Type} {m : List (Int × α)} {k : Int} {v : α}
    (q : Int × α → Bool) (h : m.lookup k = some v) (hq : q (k, v) = true) :
    (m.filter q).lookup k = some v := by
  induction m with
  | nil => simp [List.lookup] at h
  | cons p rest ih =>
    obtain ⟨k0, v0⟩ := p
    rw [lookup_cons] at h
    by_cases hk : k = k0
    · simp only [if_pos hk] at h
      subst hk
      have hv : v0 = v := Option.some_inj.mp h
      subst hv
      simp [List.filter_cons, hq, lookup_cons]
    · simp only [if_neg hk] at h
      by_cases hp : q (k0, v0) = true
      · simp [List.filter_cons, hp, lookup_cons, hk, ih h]
      · simp only [List.filter_cons, hp]
        simp only [Bool.false_eq_true, if_false]
        exact ih h

theorem eq_of_mem_keys_nodup {α : Type} {m : List (Int × α)} {p q : Int × α}
    (hnd : (m.map Prod.fst).Nodup) (hp : p ∈ m) (hq : q ∈ m) (hk : p.1 = q.1) :
    p = q := by
  induction m with
  | nil => simp at hp
  | cons r rest ih =>
    simp only [List.map_cons, List.nodup_cons] at hnd
    rcases List.mem_cons.mp hp with hp' | hp'
    · rcases List.mem_cons.mp hq with hq' | hq'
      · rw [hp', hq']
      · exfalso
        apply hnd.1
        have hm : q.1 ∈ rest.map Prod.fst := List.mem_map_of_mem Prod.fst hq'
        rw [← hk, hp'] at hm
        exact hm
    · rcases List.mem_cons.mp hq with hq' | hq'
      · exfalso
        apply hnd.1
        have hm : p.1 ∈ rest.map Prod.fst := List.mem_map_of_mem Prod.fst hp'
        rw [hk, hq'] at hm
        exact hm
      · exact ih hnd.2 hp' hq'


/-! ## Lemmas about the decimal codec -/

theorem digit_val_ofNat {d : Nat} (hd : d < 10) :
    digit_val (Char.ofNat (48 + d)) = some d := by
  interval_cases d <;> decide

theorem isSome_digit_val_ofNat {d : Nat} (hd : d < 10) :
    (digit_val (Char.ofNat (48 + d))).isSome = true := by
  rw [digit_val_ofNat hd]
  rfl

theorem digit_not_py_space {c : Char} (h : (digit_val c).isSome = true) :
    is_py_space c = false := by
  cases hsp : is_py_space c
  · rfl
  · exfalso
    unfold is_py_space at hsp
    simp only [Bool.or_eq_true, beq_iff_eq, or_assoc] at hsp
    unfold digit_val at h
    split at h
    · next hb =>
      rcases hsp with h1|h1|h1|h1|h1|h1|h1|h1|h1|h1 <;>
        (subst h1; exact absurd hb.1 (by decide))
    · cases h

theorem digit_not_plus {c : Char} (h : (digit_val c).isSome = true) : c ≠ '+' := by
  rintro rfl
  simp [digit_val] at h

theorem digit_not_dash {c : Char} (h : (digit_val c).isSome = true) : c ≠ '-' := by
  rintro rfl
  simp [digit_val] at h

theorem nat_to_chars_go_digits (n : Nat) :
    ∀ acc, (∀ c ∈ acc, (digit_val c).isSome = true) →
      ∀ c ∈ nat_to_chars_go n acc, (digit_val c).isSome = true := by
  induction n using Nat.strong_induction_on with
  | _ n ih =>
    intro acc hacc c hc
    rw [nat_to_chars_go] at hc
    by_cases h10 : n < 10
    · rw [if_pos h10] at hc
      rcases List.mem_cons.mp hc with rfl | hc
      · exact isSome_digit_val_ofNat h10
      · exact hacc c hc
    · rw [if_neg h10] at hc
      exact ih (n / 10) (Nat.div_lt_self (by omega) (by omega))
        (Char.ofNat (48 + n % 10) :: acc)
        (by
          intro c' hc'
          rcases List.mem_cons.mp hc' with rfl | hc'
          · exact isSome_digit_val_ofNat (Nat.mod_lt n (by omega))
          · exact hacc c' hc')
        c hc

theorem nat_to_chars_digits (n : Nat) :
    ∀ c ∈ nat_to_chars n, (digit_val c).isSome = true :=
  nat_to_chars_go_digits n [] (by intro c hc; simp at hc)

theorem nat_to_chars_go_ne_nil (n : Nat) : ∀ acc, nat_to_chars_go n acc ≠ [] := by
  induction n using Nat.strong_induction_on with
  | _ n ih =>
    intro acc
    rw [nat_to_chars_go]
    by_cases h10 : n < 10
    · simp [h10]
    · rw [if_neg h10]
      exact ih (n / 10) (Nat.div_lt_self (by omega) (by omega)) _

theorem parse_digits_from_digit {c : Char} {d : Nat} (h : digit_val c = some d)
    (acc : Nat) (rest : List Char) :
    parse_digits_from acc (c :: rest) = parse_digits_from (acc * 10 + d) rest := by
  conv_lhs => unfold parse_digits_from
  rw [h]

theorem parse_digits_cons (c : Char) (rest : List Char) :
    parse_digits (c :: rest) =
      if (digit_val c).isSome then parse_digits_from 0 (c :: rest) else none := by
  cases hdv : digit_val c <;> simp [parse_digits, hdv]

theorem parse_go_nat_to_chars (n : Nat) :
    ∀ acc rest, ∃ P : Nat, parse_digits_from acc (nat_to_chars_go n rest) =
      parse_digits_from (acc * P + n) rest := by
  induction n using Nat.strong_induction_on with
  | _ n ih =>
    intro acc rest
    rw [nat_to_chars_go]
    by_cases h10 : n < 10
    · refine ⟨10, ?_⟩
      rw [if_pos h10]
      rw [parse_digits_from_digit (digit_val_ofNat h10)]
    · rw [if_neg h10]
      obtain ⟨P1, hP1⟩ := ih (n / 10) (Nat.div_lt_self (by omega) (by omega)) acc
        (Char.ofNat (48 + n % 10) :: rest)
      refine ⟨P1 * 10, ?_⟩
      rw [hP1]
      have hmod : n % 10 < 10 := Nat.mod_lt n (by omega)
      rw [parse_digits_from_digit (digit_val_ofNat hmod)]
      have harith : (acc * P1 + n / 10) * 10 + n % 10 = acc * (P1 * 10) + n := by
        have := Nat.div_add_mod n 10
        ring_nf
        omega
      rw [harith]

theorem parse_digits_all_digits {cs : List Char} (hne : cs ≠ [])
    (hd : ∀ c ∈ cs, (digit_val c).isSome = true) :
    parse_digits cs = parse_digits_from 0 cs := by
  cases cs with
  | nil => exact absurd rfl hne
  | cons c rest =>
    have hc := hd c (List.mem_cons_self _ _)
    rw [parse_digits_cons, if_pos hc]

theorem nat_to_chars_ne_nil (n : Nat) : nat_to_chars n ≠ [] :=
  nat_to_chars_go_ne_nil n []

theorem parse_digits_nat_to_chars (n : Nat) :
    parse_digits (nat_to_chars n) = some n := by
  rw [parse_digits_all_digits (nat_to_chars_ne_nil n) (nat_to_chars_digits n)]
  obtain ⟨P, hP⟩ := parse_go_nat_to_chars n 0 []
  unfold nat_to_chars
  rw [hP]
  simp [parse_digits_from]

theorem dropWhile_eq_self_of_all {p : Char → Bool} {l : List Char}
    (h : ∀ c ∈ l, p c = false) : l.dropWhile p = l := by
  cases l with
  | nil => rfl
  | cons c rest =>
    rw [List.dropWhile_cons, h c (List.mem_cons_self _ _)]
    simp

theorem strip_spaces_of_digits {cs : List Char}
    (hd : ∀ c ∈ cs, (digit_val c).isSome = true) : strip_spaces cs = cs := by
  unfold strip_spaces
  have h1 : cs.dropWhile is_py_space = cs :=
    dropWhile_eq_self_of_all (fun c hc => digit_not_py_space (hd c hc))
  rw [h1]
  have h2 : cs.reverse.dropWhile is_py_space = cs.reverse :=
    dropWhile_eq_self_of_all (fun c hc =>
      digit_not_py_space (hd c (List.mem_reverse.mp hc)))
  rw [h2, List.reverse_reverse]

theorem py_int_of_digits {cs : List Char} (hne : cs ≠ [])
    (hd : ∀ c ∈ cs, (digit_val c).isSome = true) :
    py_int_nonneg cs = parse_digits cs := by
  unfold py_int_nonneg
  rw [strip_spaces_of_digits hd]
  split
  · exfalso
    exact digit_not_plus (hd '+' (List.mem_cons_self _ _)) rfl
  · rfl

theorem py_int_nat_to_chars (n : Nat) : py_int_nonneg (nat_to_chars n) = some n := by
  rw [py_int_of_digits (nat_to_chars_ne_nil n) (nat_to_chars_digits n)]
  exact parse_digits_nat_to_chars n

theorem pad2_digits (n : Nat) : ∀ c ∈ pad2 n, (digit_val c).isSome = true := by
  intro c hc
  unfold pad2 at hc
  by_cases h10 : n < 10
  · rw [if_pos h10] at hc
    rcases List.mem_cons.mp hc with rfl | hc
    · decide
    · exact nat_to_chars_digits n c hc
  · rw [if_neg h10] at hc
    exact nat_to_chars_digits n c hc

theorem pad2_ne_nil (n : Nat) : pad2 n ≠ [] := by
  unfold pad2
  by_cases h10 : n < 10
  · simp [h10]
  · rw [if_neg h10]
    exact nat_to_chars_go_ne_nil n []

theorem py_int_pad2 (n : Nat) : py_int_nonneg (pad2 n) = some n := by
  rw [py_int_of_digits (pad2_ne_nil n) (pad2_digits n)]
  unfold pad2
  by_cases h10 : n < 10
  · rw [if_pos h10]
    have hall : ∀ c ∈ '0' :: nat_to_chars n, (digit_val c).isSome = true := by
      intro c hc
      rcases List.mem_cons.mp hc with rfl | hc
      · decide
      · exact nat_to_chars_digits n c hc
    rw [parse_digits_all_digits (List.cons_ne_nil _ _) hall]
    have h0 : digit_val '0' = some 0 := by decide
    rw [parse_digits_from_digit h0]
    obtain ⟨P, hP⟩ := parse_go_nat_to_chars n 0 []
    rw [show (0 : Nat) * 10 + 0 = 0 by omega]
    unfold nat_to_chars
    rw [hP]
    simp [parse_digits_from]
  · rw [if_neg h10]
    exact parse_digits_nat_to_chars n

/-! ## Lemmas about `split_dash` -/

theorem split_dash_no_dash {A : List Char} (h : ∀ c ∈ A, c ≠ '-') :
    split_dash A = [A] := by
  induction A with
  | nil => rfl
  | cons c rest ih =>
    have hc : c ≠ '-' := h c (List.mem_cons_self _ _)
    rw [split_dash]
    simp only [if_neg hc]
    rw [ih (fun c' hc' => h c' (List.mem_cons_of_mem _ hc'))]
    rfl

theorem split_dash_append {A : List Char} (B : List Char) (h : ∀ c ∈ A, c ≠ '-') :
    split_dash (A ++ '-' :: B) = A :: split_dash B := by
  induction A with
  | nil =>
    rw [List.nil_append, split_dash]
    simp
  | cons c rest ih =>
    have hc : c ≠ '-' := h c (List.mem_cons_self _ _)
    rw [List.cons_append, split_dash]
    simp only [if_neg hc]
    rw [ih (fun c' hc' => h c' (List.mem_cons_of_mem _ hc'))]
    rfl

/-! ## Date round-trip lemmas -/

theorem date_int_to_str_zero : date_int_to_str 0 = none := rfl

theorem date_str_to_int_some (cs : List Char) :
    date_str_to_int (some cs) =
      if cs.isEmpty then 0
      else
        match split_dash cs with
        | [p0, p1, p2] =>
          match py_int_nonneg p0, py_int_nonneg p1, py_int_nonneg p2 with
          | some a, some b, some c => a * 10000 + b * 100 + c
          | _, _, _ => 0
        | _ => 0 := rfl

theorem split_of_date_chars (y m d : Nat) :
    split_dash (nat_to_chars y ++ '-' :: pad2 m ++ '-' :: pad2 d) =
      [nat_to_chars y, pad2 m, pad2 d] := by
  have hassoc : nat_to_chars y ++ '-' :: pad2 m ++ '-' :: pad2 d
      = nat_to_chars y ++ '-' :: (pad2 m ++ '-' :: pad2 d) := by
    simp [List.cons_append, List.append_assoc]
  rw [hassoc]
  rw [split_dash_append (pad2 m ++ '-' :: pad2 d)
      (fun c hc => digit_not_dash (nat_to_chars_digits y c hc))]
  rw [split_dash_append (pad2 d) (fun c hc => digit_not_dash (pad2_digits m c hc))]
  rw [split_dash_no_dash (fun c hc => digit_not_dash (pad2_digits d c hc))]

theorem date_chars_ne_nil (y m d : Nat) :
    nat_to_chars y ++ '-' :: pad2 m ++ '-' :: pad2 d ≠ [] := by
  intro h
  simp [List.append_eq_nil] at h

theorem date_parse_canonical (y m d : Nat) :
    date_str_to_int (some (nat_to_chars y ++ '-' :: pad2 m ++ '-' :: pad2 d)) =
      y * 10000 + m * 100 + d := by
  rw [date_str_to_int_some]
  rw [if_neg (by
    intro hcon
    exact date_chars_ne_nil y m d (List.isEmpty_iff.mp hcon))]
  rw [split_of_date_chars y m d]
  simp only [py_int_nat_to_chars, py_int_pad2]

theorem date_roundtrip_int {i : Nat} (hi : i ≠ 0) :
    date_str_to_int (date_int_to_str i) = i := by
  rw [show date_int_to_str i =
      some (nat_to_chars (i / 10000) ++ '-' :: pad2 ((i % 10000) / 100)
        ++ '-' :: pad2 (i % 100)) by
    unfold date_int_to_str
    rw [if_neg hi]]
  rw [date_parse_canonical]
  omega


/-! ## Lemmas about the cache operations -/

theorem lookup_touch_self (now : Int) (qq : Int) (c : Cache) :
    (touch now qq c).lookup qq =
      (c.lookup qq).map (fun e => { e with last_activity := now }) := by
  unfold touch
  cases h : c.lookup qq with
  | none => simp [h]
  | some e => simp [lookup_dictSet_self]

theorem lookup_load_self (files : Files) (now : Int) (qq : Int) (c : Cache) :
    (load_from_file files now qq c).lookup qq =
      some { balance := ((read_shard_file (files (shard_id qq))).balances.lookup qq).getD 0,
             last_daily := date_str_to_int ((read_shard_file (files (shard_id qq))).last_daily.lookup qq),
             last_activity := now } := by
  unfold load_from_file
  exact lookup_dictSet_self _ _ _

theorem lookup_ensure_isSome (files : Files) (now : Int) (qq : Int) (c : Cache) :
    ((ensure_loaded files now qq c).lookup qq).isSome = true := by
  unfold ensure_loaded
  by_cases h : (c.lookup qq).isSome = true
  · rw [if_pos h]
    exact h
  · rw [if_neg h, lookup_load_self]
    rfl

theorem get_currency_fst (files : Files) (now : Int) (qq : Int) (c : Cache) :
    (get_currency files now qq c).1 =
      (((ensure_loaded files now qq c).lookup qq).getD
        { balance := 0, last_daily := 0, last_activity := now }).balance := by
  unfold get_currency
  cases h : (ensure_loaded files now qq c).lookup qq with
  | none => simp [lookup_touch_self, h]
  | some e => simp [lookup_touch_self, h]

theorem get_last_daily_fst (files : Files) (now : Int) (qq : Int) (c : Cache) :
    (get_last_daily_date files now qq c).1 =
      date_int_to_str ((((ensure_loaded files now qq c).lookup qq).getD
        { balance := 0, last_daily := 0, last_activity := now }).last_daily) := by
  unfold get_last_daily_date
  cases h : (ensure_loaded files now qq c).lookup qq with
  | none => simp [lookup_touch_self, h]
  | some e => simp [lookup_touch_self, h]

/-! ## Non-negativity preservation -/

theorem cache_nonneg_touch {c : Cache} (h : CacheNonNeg c) (now qq : Int) :
    CacheNonNeg (touch now qq c) := by
  unfold touch
  cases hl : c.lookup qq with
  | none => exact h
  | some e =>
    intro p hp
    rcases mem_dictSet _ _ _ p hp with rfl | hp'
    · exact h (qq, e) (lookup_mem hl)
    · exact h p hp'

theorem cache_nonneg_load {files : Files} {c : Cache} (hf : FilesNonNeg files)
    (hc : CacheNonNeg c) (now qq : Int) :
    CacheNonNeg (load_from_file files now qq c) := by
  unfold load_from_file
  intro p hp
  rcases mem_dictSet _ _ _ p hp with rfl | hp'
  · cases hb : (read_shard_file (files (shard_id qq))).balances.lookup qq with
    | none => simp [hb]
    | some b =>
      simp only [hb, Option.getD_some]
      exact hf (shard_id qq) (qq, b) (lookup_mem hb)
  · exact hc p hp'

theorem cache_nonneg_ensure {files : Files} {c : Cache} (hf : FilesNonNeg files)
    (hc : CacheNonNeg c) (now qq : Int) :
    CacheNonNeg (ensure_loaded files now qq c) := by
  unfold ensure_loaded
  by_cases h : ((c.lookup qq).isSome : Prop)
  · simpa [h] using hc
  · rw [if_neg (by simpa using h)]
    exact cache_nonneg_load hf hc now qq

theorem nonneg_of_lookup {c : Cache} (hc : CacheNonNeg c) (qq : Int) (now : Int) :
    0 ≤ ((c.lookup qq).getD { balance := 0, last_daily := 0, last_activity := now }).balance := by
  cases h : c.lookup qq with
  | none => simp
  | some e =>
    simp only [Option.getD_some]
    exact hc (qq, e) (lookup_mem h)

theorem cache_nonneg_get {files : Files} {c : Cache} (hf : FilesNonNeg files)
    (hc : CacheNonNeg c) (now qq : Int) :
    CacheNonNeg (get_currency files now qq c).2 :=
  cache_nonneg_touch (cache_nonneg_ensure hf hc now qq) now qq

theorem cache_nonneg_set {files : Files} {c : Cache} (hf : FilesNonNeg files)
    (hc : CacheNonNeg c) (now qq amount : Int) :
    CacheNonNeg (set_currency files now qq amount c) := by
  unfold set_currency
  intro p hp
  rcases mem_dictSet _ _ _ p hp with rfl | hp'
  · by_cases hneg : amount < 0
    · simp [hneg]
    · simpa [hneg] using le_of_not_lt hneg
  · exact cache_nonneg_ensure hf hc now qq p hp'

theorem cache_nonneg_add {files : Files} {c : Cache} (hf : FilesNonNeg files)
    (hc : CacheNonNeg c) (now qq delta : Int) :
    CacheNonNeg (add_currency files now qq delta c).2 := by
  unfold add_currency
  intro p hp
  rcases mem_dictSet _ _ _ p hp with rfl | hp'
  · exact le_max_left 0 _
  · exact cache_nonneg_ensure hf hc now qq p hp'

theorem cache_nonneg_get_date {files : Files} {c : Cache} (hf : FilesNonNeg files)
    (hc : CacheNonNeg c) (now qq : Int) :
    CacheNonNeg (get_last_daily_date files now qq c).2 :=
  cache_nonneg_touch (cache_nonneg_ensure hf hc now qq) now qq

theorem cache_nonneg_set_date {files : Files} {c : Cache} (hf : FilesNonNeg files)
    (hc : CacheNonNeg c) (now qq : Int) (ds : List Char) :
    CacheNonNeg (set_last_daily_date files now qq ds c) := by
  unfold set_last_daily_date
  intro p hp
  rcases mem_dictSet _ _ _ p hp with rfl | hp'
  · exact nonneg_of_lookup (cache_nonneg_ensure hf hc now qq) qq now
  · exact cache_nonneg_ensure hf hc now qq p hp'

theorem merge_entry_balances (d : ShardData) (p : Int × Entry) :
    (merge_entry d p).balances = dictSet d.balances p.1 p.2.balance := by
  unfold merge_entry
  split <;> rfl

theorem worker_balances_nonneg (entries : Cache) :
    ∀ d : ShardData, CacheNonNeg entries → (∀ q ∈ d.balances, 0 ≤ q.2) →
      ∀ q ∈ (write_one_shard_worker entries d).balances, 0 ≤ q.2 := by
  induction entries with
  | nil =>
    intro d _ hd q hq
    exact hd q hq
  | cons p rest ih =>
    intro d he hd q hq
    have hrest : CacheNonNeg rest := fun r hr => he r (List.mem_cons_of_mem _ hr)
    refine ih (merge_entry d p) hrest ?_ q hq
    intro r hr
    rw [merge_entry_balances] at hr
    rcases mem_dictSet _ _ _ r hr with rfl | hr'
    · exact he p (List.mem_cons_self _ _)
    · exact hd r hr'

theorem shard_entries_subset {cache : Cache} {sid : Nat} :
    ∀ p ∈ shard_entries cache sid, p ∈ cache := by
  intro p hp
  exact List.mem_of_mem_filter hp

theorem files_nonneg_update {files : Files} {sid : Nat} {d : ShardData}
    (hf : FilesNonNeg files) (hd : ∀ q ∈ d.balances, 0 ≤ q.2) :
    FilesNonNeg (update_files files sid d) := by
  intro sid' q hq
  unfold update_files read_shard_file at hq
  by_cases h : sid' = sid
  · rw [if_pos h] at hq
    exact hd q hq
  · rw [if_neg h] at hq
    exact hf sid' q hq

theorem files_nonneg_flush {cache : Cache} (writeOk : Nat → Bool)
    (hc : CacheNonNeg cache) :
    ∀ (tasks : List Nat) (files : Files), FilesNonNeg files →
      FilesNonNeg (tasks.foldl
        (fun fs sid =>
          if writeOk sid then write_shard fs sid (shard_entries cache sid) else fs)
        files) := by
  intro tasks
  induction tasks with
  | nil =>
    intro files hf
    exact hf
  | cons t rest ih =>
    intro files hf
    simp only [List.foldl_cons]
    apply ih
    by_cases hw : writeOk t = true
    · rw [if_pos hw]
      unfold write_shard
      apply files_nonneg_update hf
      apply worker_balances_nonneg (shard_entries cache t) _ (fun p hp => hc p (shard_entries_subset p hp))
      intro q hq
      exact hf t q hq
    · rw [if_neg hw]
      exact hf

theorem files_nonneg_flush_to_file {files : Files} {cache : Cache}
    (writeOk : Nat → Bool) (hf : FilesNonNeg files) (hc : CacheNonNeg cache) :
    FilesNonNeg (flush_to_file writeOk files cache).1 :=
  files_nonneg_flush writeOk hc (admit_shards cache) files hf

theorem mem_evict_subset {now : Int} {c : Cache} :
    ∀ p ∈ evict_inactive now c, p ∈ c := by
  intro p hp
  unfold evict_inactive at hp
  by_cases h : (c.filter (fun p => decide (now - p.2.last_activity < INACTIVE_TTL))).length ≤ MAX_CACHE_SIZE
  · rw [if_pos h] at hp
    exact List.mem_of_mem_filter hp
  · rw [if_neg h] at hp
    exact List.mem_of_mem_filter (List.mem_of_mem_filter hp)


/-! ## Lemmas about the shard write worker -/

theorem merge_entry_last_daily_self (d : ShardData) (p : Int × Entry) :
    (merge_entry d p).last_daily.lookup p.1 = date_int_to_str p.2.last_daily := by
  unfold merge_entry
  cases h : date_int_to_str p.2.last_daily with
  | none => simpa [h] using lookup_dictPop_self d.last_daily p.1
  | some ds => simpa [h] using lookup_dictSet_self d.last_daily p.1 ds

theorem merge_entry_lookup_ne (d : ShardData) (p : Int × Entry) {qq : Int}
    (h : qq ≠ p.1) :
    (merge_entry d p).balances.lookup qq = d.balances.lookup qq ∧
    (merge_entry d p).last_daily.lookup qq = d.last_daily.lookup qq := by
  constructor
  · rw [merge_entry_balances]
    exact lookup_dictSet_ne _ _ _ _ h
  · unfold merge_entry
    cases hd : date_int_to_str p.2.last_daily with
    | none => simpa [hd] using lookup_dictPop_ne d.last_daily p.1 qq h
    | some ds => simpa [hd] using lookup_dictSet_ne d.last_daily p.1 qq ds h

theorem worker_frame (entries : Cache) :
    ∀ (d : ShardData) (qq : Int), (∀ p ∈ entries, p.1 ≠ qq) →
      (write_one_shard_worker entries d).balances.lookup qq = d.balances.lookup qq ∧
      (write_one_shard_worker entries d).last_daily.lookup qq = d.last_daily.lookup qq := by
  induction entries with
  | nil =>
    intro d qq _
    exact ⟨rfl, rfl⟩
  | cons p rest ih =>
    intro d qq h
    have hne : qq ≠ p.1 := fun hc => h p (List.mem_cons_self _ _) hc.symm
    have hrest : ∀ q ∈ rest, q.1 ≠ qq := fun q hq => h q (List.mem_cons_of_mem _ hq)
    unfold write_one_shard_worker at ih ⊢
    rw [List.foldl_cons]
    obtain ⟨ihb, ihd⟩ := ih (merge_entry d p) qq hrest
    obtain ⟨hb, hd⟩ := merge_entry_lookup_ne d p hne
    exact ⟨ihb.trans hb, ihd.trans hd⟩

theorem worker_overlay (entries : Cache) :
    ∀ (d : ShardData) (qq : Int) (e : Entry),
      (entries.map Prod.fst).Nodup → entries.lookup qq = some e →
      (write_one_shard_worker entries d).balances.lookup qq = some e.balance ∧
      (write_one_shard_worker entries d).last_daily.lookup qq = date_int_to_str e.last_daily := by
  induction entries with
  | nil =>
    intro d qq e _ h
    simp [List.lookup] at h
  | cons p rest ih =>
    intro d qq e hnd h
    obtain ⟨k, v⟩ := p
    rw [lookup_cons] at h
    simp only [List.map_cons, List.nodup_cons] at hnd
    by_cases hk : qq = k
    · subst hk
      have hv : v = e := Option.some_inj.mp (by simpa [if_pos rfl] using h)
      subst hv
      have hrest : ∀ q ∈ rest, q.1 ≠ qq := by
        intro q hq hcon
        exact hnd.1 (hcon ▸ List.mem_map_of_mem Prod.fst hq)
      unfold write_one_shard_worker
      rw [List.foldl_cons]
      obtain ⟨hb, hd⟩ := worker_frame rest (merge_entry d (qq, v)) qq hrest
      refine ⟨hb.trans ?_, hd.trans ?_⟩
      · rw [merge_entry_balances]
        exact lookup_dictSet_self _ _ _
      · exact merge_entry_last_daily_self d (qq, v)
    · rw [if_neg hk] at h
      unfold write_one_shard_worker
      rw [List.foldl_cons]
      exact ih (merge_entry d (k, v)) qq e hnd.2 h

theorem keys_filter_nodup {cache : Cache} (f : Int × Entry → Bool)
    (hnd : (cache.map Prod.fst).Nodup) :
    ((cache.filter f).map Prod.fst).Nodup :=
  List.Nodup.sublist ((cache.filter_sublist).map Prod.fst) hnd

theorem lookup_shard_entries {cache : Cache} {qq : Int} {e : Entry}
    (h : cache.lookup qq = some e) :
    (shard_entries cache (shard_id qq)).lookup qq = some e :=
  lookup_filter _ h (by simp)

/-! ## Lemmas about flush admission -/

theorem admit_go_take (cache : Cache) :
    ∀ (l : List Nat) (bytes : Nat), ∃ k, admit_go cache l bytes = l.take k := by
  intro l
  induction l with
  | nil =>
    intro bytes
    exact ⟨0, rfl⟩
  | cons sid rest ih =>
    intro bytes
    rw [admit_go]
    by_cases h1 : bytes ≥ MAX_BYTES_PER_ROUND
    · exact ⟨0, by rw [if_pos h1]; rfl⟩
    · rw [if_neg h1]
      by_cases h2 : bytes + est_bytes (shard_entries cache sid).length > MAX_BYTES_PER_ROUND
          ∧ 0 < bytes
      · exact ⟨0, by rw [if_pos h2]; rfl⟩
      · rw [if_neg h2]
        obtain ⟨k, hk⟩ := ih (bytes + est_bytes (shard_entries cache sid).length)
        exact ⟨k + 1, by rw [hk]; rfl⟩

theorem admit_shards_take (cache : Cache) :
    ∃ k, admit_shards cache = (dirty_shards cache).take k :=
  admit_go_take cache (dirty_shards cache) 0

theorem admit_first (cache : Cache) {s0 : Nat} {rest : List Nat}
    (h : dirty_shards cache = s0 :: rest) :
    admit_shards cache =
      s0 :: admit_go cache rest (est_bytes (shard_entries cache s0).length) := by
  unfold admit_shards
  rw [h, admit_go]
  rw [if_neg (by unfold MAX_BYTES_PER_ROUND; omega)]
  rw [if_neg (by simp)]
  rw [Nat.zero_add]

theorem est_bytes_pos {n : Nat} (h : 0 < n) : 0 < est_bytes n := by
  have heq : est_bytes n =
      if n * 55 * 2 > 70 * 1024 * 1024 then 70 * 1024 * 1024 else n * 55 * 2 := rfl
  rw [heq]
  split <;> omega

theorem mem_dirty_entries_pos {cache : Cache} {sid : Nat}
    (h : sid ∈ dirty_shards cache) : 0 < (shard_entries cache sid).length := by
  unfold dirty_shards at h
  have := (List.mem_filter.mp h).2
  simp only [decide_eq_true_eq] at this
  exact List.length_pos.mpr this

theorem admit_go_budget (cache : Cache) :
    ∀ (l : List Nat) (bytes : Nat), 0 < bytes →
      admit_go cache l bytes = [] ∨
      bytes + ((admit_go cache l bytes).map
        (fun sid => est_bytes (shard_entries cache sid).length)).sum ≤
          MAX_BYTES_PER_ROUND := by
  intro l
  induction l with
  | nil =>
    intro bytes _
    exact Or.inl rfl
  | cons sid rest ih =>
    intro bytes hpos
    rw [admit_go]
    by_cases h1 : bytes ≥ MAX_BYTES_PER_ROUND
    · exact Or.inl (by rw [if_pos h1])
    · rw [if_neg h1]
      by_cases h2 : bytes + est_bytes (shard_entries cache sid).length > MAX_BYTES_PER_ROUND
          ∧ 0 < bytes
      · exact Or.inl (by rw [if_pos h2])
      · rw [if_neg h2]
        have hle : bytes + est_bytes (shard_entries cache sid).length ≤ MAX_BYTES_PER_ROUND := by
          rcases not_and_or.mp h2 with h | h
          · omega
          · exact absurd hpos h
        right
        rcases ih (bytes + est_bytes (shard_entries cache sid).length) (by omega) with hnil | hsum
        · rw [hnil]
          simpa using hle
        · rw [List.map_cons, List.sum_cons]
          omega

theorem admitted_sum_le {cache : Cache} (h : 2 ≤ (admit_shards cache).length) :
    ((admit_shards cache).map
      (fun sid => est_bytes (shard_entries cache sid).length)).sum ≤
        MAX_BYTES_PER_ROUND := by
  cases hd : dirty_shards cache with
  | nil =>
    exfalso
    rw [admit_shards, hd] at h
    simp [admit_go] at h
  | cons s0 rest =>
    have hfirst := admit_first cache hd
    have hpos : 0 < est_bytes (shard_entries cache s0).length :=
      est_bytes_pos (mem_dirty_entries_pos (by rw [hd]; exact List.mem_cons_self _ _))
    rcases admit_go_budget cache rest (est_bytes (shard_entries cache s0).length) hpos with
      hnil | hsum
    · exfalso
      rw [hfirst, hnil] at h
      simp at h
    · rw [hfirst, List.map_cons, List.sum_cons]
      omega

theorem fold_files_not_mem (cache : Cache) (writeOk : Nat → Bool) {sid : Nat} :
    ∀ (tasks : List Nat) (files : Files), sid ∉ tasks →
      (tasks.foldl
        (fun fs s =>
          if writeOk s then write_shard fs s (shard_entries cache s) else fs)
        files) sid = files sid := by
  intro tasks
  induction tasks with
  | nil =>
    intro files _
    rfl
  | cons t rest ih =>
    intro files hmem
    have hne : sid ≠ t := fun hc => hmem (hc ▸ List.mem_cons_self _ _)
    rw [List.foldl_cons]
    rw [ih _ (fun hc => hmem (List.mem_cons_of_mem _ hc))]
    by_cases hw : writeOk t = true
    · rw [if_pos hw]
      unfold write_shard update_files
      rw [if_neg hne]
    · rw [if_neg hw]

theorem flush_not_admitted {cache : Cache} {files : Files} (writeOk : Nat → Bool)
    {sid : Nat} (h : sid ∉ admit_shards cache) :
    (flush_to_file writeOk files cache).1 sid = files sid :=
  fold_files_not_mem cache writeOk (admit_shards cache) files h

theorem dirty_shards_nodup (cache : Cache) : (dirty_shards cache).Nodup :=
  List.Nodup.sublist (List.filter_sublist _) (List.nodup_range NUM_SHARDS)

theorem admit_shards_nodup (cache : Cache) : (admit_shards cache).Nodup := by
  obtain ⟨k, hk⟩ := admit_shards_take cache
  rw [hk]
  exact List.Nodup.sublist (List.take_sublist k _) (dirty_shards_nodup cache)

theorem fold_files_mem (cache : Cache) (writeOk : Nat → Bool) {sid : Nat} :
    ∀ (tasks : List Nat) (files : Files), tasks.Nodup → sid ∈ tasks →
      writeOk sid = true →
      (tasks.foldl
        (fun fs s =>
          if writeOk s then write_shard fs s (shard_entries cache s) else fs)
        files) sid =
        some (write_one_shard_worker (shard_entries cache sid)
          (read_shard_file (files sid))) := by
  intro tasks
  induction tasks with
  | nil =>
    intro files _ hmem _
    simp at hmem
  | cons t rest ih =>
    intro files hnd hmem hw
    rw [List.foldl_cons]
    rcases List.mem_cons.mp hmem with rfl | hmem'
    · have hnotin : sid ∉ rest := (List.nodup_cons.mp hnd).1
      rw [fold_files_not_mem cache writeOk rest _ hnotin]
      rw [if_pos hw]
      unfold write_shard update_files
      rw [if_pos rfl]
    · have hne : sid ≠ t := by
        intro hc
        exact (List.nodup_cons.mp hnd).1 (hc ▸ hmem')
      have hfs : (if writeOk t then write_shard files t (shard_entries cache t) else files) sid
          = files sid := by
        by_cases hwt : writeOk t = true
        · rw [if_pos hwt]
          unfold write_shard update_files
          rw [if_neg hne]
        · rw [if_neg hwt]
      rw [ih _ (List.nodup_cons.mp hnd).2 hmem' hw, hfs]

theorem flush_admitted_ok {cache : Cache} {files : Files} {writeOk : Nat → Bool}
    {sid : Nat} (h : sid ∈ admit_shards cache) (hw : writeOk sid = true) :
    (flush_to_file writeOk files cache).1 sid =
      some (write_one_shard_worker (shard_entries cache sid)
        (read_shard_file (files sid))) :=
  fold_files_mem cache writeOk (admit_shards cache) files
    (admit_shards_nodup cache) h hw

theorem fold_outcomes_not_mem (cache : Cache) (outcome : Nat → WriteOutcome)
    {sid : Nat} :
    ∀ (tasks : List Nat) (files : Files), sid ∉ tasks →
      (tasks.foldl
        (fun fs s =>
          match outcome s with
          | .ok => write_shard fs s (shard_entries cache s)
          | .failed left => set_file fs s left)
        files) sid = files sid := by
  intro tasks
  induction tasks with
  | nil =>
    intro files _
    rfl
  | cons t rest ih =>
    intro files hmem
    have hne : sid ≠ t := fun hc => hmem (hc ▸ List.mem_cons_self _ _)
    rw [List.foldl_cons]
    rw [ih _ (fun hc => hmem (List.mem_cons_of_mem _ hc))]
    cases ho : outcome t with
    | ok => simp [write_shard, update_files, hne]
    | failed left => simp [set_file, hne]

theorem fold_outcomes_mem_ok (cache : Cache) (outcome : Nat → WriteOutcome)
    {sid : Nat} :
    ∀ (tasks : List Nat) (files : Files), tasks.Nodup → sid ∈ tasks →
      outcome sid = WriteOutcome.ok →
      (tasks.foldl
        (fun fs s =>
          match outcome s with
          | .ok => write_shard fs s (shard_entries cache s)
          | .failed left => set_file fs s left)
        files) sid =
        some (write_one_shard_worker (shard_entries cache sid)
          (read_shard_file (files sid))) := by
  intro tasks
  induction tasks with
  | nil =>
    intro files _ hmem _
    simp at hmem
  | cons t rest ih =>
    intro files hnd hmem hok
    rw [List.foldl_cons]
    rcases List.mem_cons.mp hmem with rfl | hmem'
    · have hnotin : sid ∉ rest := (List.nodup_cons.mp hnd).1
      rw [fold_outcomes_not_mem cache outcome rest _ hnotin, hok]
      simp [write_shard, update_files]
    · have hne : sid ≠ t := by
        intro hc
        exact (List.nodup_cons.mp hnd).1 (hc ▸ hmem')
      have hfs : (match outcome t with
          | WriteOutcome.ok => write_shard files t (shard_entries cache t)
          | WriteOutcome.failed left => set_file files t left) sid = files sid := by
        cases ho : outcome t with
        | ok => simp [write_shard, update_files, hne]
        | failed left => simp [set_file, hne]
      rw [ih _ (List.nodup_cons.mp hnd).2 hmem' hok, hfs]

theorem flush_outcomes_admitted_ok {cache : Cache} {files : Files}
    {outcome : Nat → WriteOutcome} {sid : Nat} (h : sid ∈ admit_shards cache)
    (hok : outcome sid = WriteOutcome.ok) :
    (flush_to_file_outcomes outcome files cache).1 sid =
      some (write_one_shard_worker (shard_entries cache sid)
        (read_shard_file (files sid))) :=
  fold_outcomes_mem_ok cache outcome (admit_shards cache) files
    (admit_shards_nodup cache) h hok

theorem flush_outcomes_not_admitted {cache : Cache} {files : Files}
    (outcome : Nat → WriteOutcome) {sid : Nat} (h : sid ∉ admit_shards cache) :
    (flush_to_file_outcomes outcome files cache).1 sid = files sid :=
  fold_outcomes_not_mem cache outcome (admit_shards cache) files h

/-! ## Lemmas about eviction -/

theorem evict_inactive_eq (now : Int) (cache : Cache) :
    evict_inactive now cache =
      if (cache.filter (fun p => decide (now - p.2.last_activity < INACTIVE_TTL))).length ≤
          MAX_CACHE_SIZE then
        cache.filter (fun p => decide (now - p.2.last_activity < INACTIVE_TTL))
      else
        (cache.filter (fun p => decide (now - p.2.last_activity < INACTIVE_TTL))).filter
          (fun p => decide (p.1 ∉
            (((cache.filter (fun p => decide (now - p.2.last_activity < INACTIVE_TTL))).mergeSort
                (fun a b => decide (a.2.last_activity ≤ b.2.last_activity))).take
              ((cache.filter (fun p => decide (now - p.2.last_activity < INACTIVE_TTL))).length -
                MAX_CACHE_SIZE)).map Prod.fst)) := rfl

theorem evict_fresh (now : Int) (cache : Cache) :
    ∀ p ∈ evict_inactive now cache, now - p.2.last_activity < INACTIVE_TTL := by
  intro p hp
  rw [evict_inactive_eq] at hp
  set kept := cache.filter (fun p => decide (now - p.2.last_activity < INACTIVE_TTL)) with hkept
  by_cases hb : kept.length ≤ MAX_CACHE_SIZE
  · rw [if_pos hb] at hp
    simpa using (List.mem_filter.mp hp).2
  · rw [if_neg hb] at hp
    simpa using (List.mem_filter.mp (List.mem_of_mem_filter hp)).2

theorem le_activity_trans : ∀ a b c : Int × Entry,
    decide (a.2.last_activity ≤ b.2.last_activity) = true →
    decide (b.2.last_activity ≤ c.2.last_activity) = true →
    decide (a.2.last_activity ≤ c.2.last_activity) = true := by
  intro a b c hab hbc
  simp only [decide_eq_true_eq] at hab hbc ⊢
  omega

theorem le_activity_total : ∀ a b : Int × Entry,
    (decide (a.2.last_activity ≤ b.2.last_activity) ||
      decide (b.2.last_activity ≤ a.2.last_activity)) = true := by
  intro a b
  simp only [Bool.or_eq_true, decide_eq_true_eq]
  omega

theorem evict_size (now : Int) (cache : Cache) (hnd : (cache.map Prod.fst).Nodup) :
    (evict_inactive now cache).length ≤ MAX_CACHE_SIZE := by
  rw [evict_inactive_eq]
  set kept := cache.filter (fun p => decide (now - p.2.last_activity < INACTIVE_TTL)) with hkept
  by_cases hb : kept.length ≤ MAX_CACHE_SIZE
  · rw [if_pos hb]
    exact hb
  · rw [if_neg hb]
    set ordered := kept.mergeSort (fun a b => decide (a.2.last_activity ≤ b.2.last_activity))
      with hordered
    set removed := (ordered.take (kept.length - MAX_CACHE_SIZE)).map Prod.fst with hremoved
    push_neg at hb
    have hperm : ordered.Perm kept := List.mergeSort_perm kept _
    have hkeptnd : (kept.map Prod.fst).Nodup := keys_filter_nodup _ hnd
    have hordnd : (ordered.map Prod.fst).Nodup :=
      (List.Perm.nodup_iff (List.Perm.map Prod.fst hperm)).mpr hkeptnd
    have hremnd : removed.Nodup := by
      rw [hremoved]
      exact List.Nodup.sublist (List.Sublist.map Prod.fst (List.take_sublist _ _)) hordnd
    have hrem_len : removed.length = kept.length - MAX_CACHE_SIZE := by
      rw [hremoved, List.length_map, List.length_take, List.Perm.length_eq hperm]
      omega
    have hsub : removed ⊆ (kept.filter (fun p => decide (p.1 ∈ removed))).map Prod.fst := by
      intro r hr
      have hr' : r ∈ (ordered.take (kept.length - MAX_CACHE_SIZE)).map Prod.fst := by
        rw [← hremoved]
        exact hr
      obtain ⟨p, hp_take, hp1⟩ := List.mem_map.mp hr'
      have hp_kept : p ∈ kept := (List.Perm.mem_iff hperm).mp (List.mem_of_mem_take hp_take)
      have hp_filter : p ∈ kept.filter (fun p => decide (p.1 ∈ removed)) :=
        List.mem_filter.mpr ⟨hp_kept, by simp only [decide_eq_true_eq]; rw [hp1]; exact hr⟩
      exact hp1 ▸ List.mem_map_of_mem Prod.fst hp_filter
    have hcount : removed.length ≤ (kept.filter (fun p => decide (p.1 ∈ removed))).length := by
      have hlen := (List.subperm_of_subset hremnd hsub).length_le
      simpa using hlen
    have hpart := List.length_eq_length_filter_add (l := kept) (fun p => decide (p.1 ∈ removed))
    have hfun : (fun p : Int × Entry => decide (p.1 ∉ removed)) =
        fun p => !(decide (p.1 ∈ removed)) := by
      funext p
      simp [decide_not]
    rw [hfun]
    omega

theorem evict_least (now : Int) (cache : Cache) (hnd : (cache.map Prod.fst).Nodup) :
    ∀ p, p ∈ cache → p ∉ evict_inactive now cache →
      now - p.2.last_activity < INACTIVE_TTL →
      ∀ q ∈ evict_inactive now cache, p.2.last_activity ≤ q.2.last_activity := by
  intro p hpc hpnot hfresh q hq
  rw [evict_inactive_eq] at hpnot hq
  set kept := cache.filter (fun p => decide (now - p.2.last_activity < INACTIVE_TTL)) with hkept
  have hpk : p ∈ kept := List.mem_filter.mpr ⟨hpc, by simpa using hfresh⟩
  by_cases hb : kept.length ≤ MAX_CACHE_SIZE
  · rw [if_pos hb] at hpnot
    exact absurd hpk hpnot
  · rw [if_neg hb] at hpnot hq
    set ordered := kept.mergeSort (fun a b => decide (a.2.last_activity ≤ b.2.last_activity))
      with hordered
    set removed := (ordered.take (kept.length - MAX_CACHE_SIZE)).map Prod.fst with hremoved
    have hperm : ordered.Perm kept := List.mergeSort_perm kept _
    have hkeptnd : (kept.map Prod.fst).Nodup := keys_filter_nodup _ hnd
    have hpin : p.1 ∈ removed := by
      by_contra hnotin
      exact hpnot (List.mem_filter.mpr ⟨hpk, by simpa using hnotin⟩)
    have hp1 : p.1 ∈ (ordered.take (kept.length - MAX_CACHE_SIZE)).map Prod.fst := by
      rw [← hremoved]
      exact hpin
    obtain ⟨p', hp'take, hp'1⟩ := List.mem_map.mp hp1
    have hp'kept : p' ∈ kept := (List.Perm.mem_iff hperm).mp (List.mem_of_mem_take hp'take)
    have hpeq : p' = p := eq_of_mem_keys_nodup hkeptnd hp'kept hpk hp'1
    have hqk : q ∈ kept := List.mem_of_mem_filter hq
    have hqnotin : q.1 ∉ removed := by simpa using (List.mem_filter.mp hq).2
    have hqord : q ∈ ordered := (List.Perm.mem_iff hperm).mpr hqk
    have hsplit := List.take_append_drop (kept.length - MAX_CACHE_SIZE) ordered
    have hqdrop : q ∈ ordered.drop (kept.length - MAX_CACHE_SIZE) := by
      rcases List.mem_append.mp (by rw [hsplit]; exact hqord) with htk | hdp
      · exfalso
        apply hqnotin
        rw [hremoved]
        exact List.mem_map_of_mem Prod.fst htk
      · exact hdp
    have hsorted := List.sorted_mergeSort le_activity_trans le_activity_total kept
    rw [← hordered] at hsorted
    rw [← hsplit] at hsorted
    have hcmp := (List.pairwise_append.mp hsorted).2.2 p (hpeq ▸ hp'take) q hqdrop
    simpa using hcmp


/-! ## Lemmas about the timer round and operation sequences -/

theorem timer_work_eq (writeOk : Nat → Bool) (now : Int) (files : Files) (cache : Cache) :
    timer_work writeOk now files cache =
      if (flush_to_file writeOk files cache).2 then
        (((flush_to_file writeOk files cache).1, evict_inactive now cache), true)
      else (((flush_to_file writeOk files cache).1, cache), false) := rfl

theorem timer_work_files (writeOk : Nat → Bool) (now : Int) (files : Files) (cache : Cache) :
    (timer_work writeOk now files cache).1.1 = (flush_to_file writeOk files cache).1 := by
  rw [timer_work_eq]
  split <;> rfl

theorem timer_work_cache_cases (writeOk : Nat → Bool) (now : Int) (files : Files)
    (cache : Cache) :
    (timer_work writeOk now files cache).1.2 = evict_inactive now cache ∨
      (timer_work writeOk now files cache).1.2 = cache := by
  rw [timer_work_eq]
  split
  · exact Or.inl rfl
  · exact Or.inr rfl

theorem timer_work_outcomes_eq (outcome : Nat → WriteOutcome) (now : Int)
    (files : Files) (cache : Cache) :
    timer_work_outcomes outcome now files cache =
      if (flush_to_file_outcomes outcome files cache).2 then
        (((flush_to_file_outcomes outcome files cache).1, evict_inactive now cache), true)
      else (((flush_to_file_outcomes outcome files cache).1, cache), false) := rfl

theorem timer_work_outcomes_cache_fail {outcome : Nat → WriteOutcome} {files : Files}
    {cache : Cache} (now : Int)
    (h : (flush_to_file_outcomes outcome files cache).2 = false) :
    (timer_work_outcomes outcome now files cache).1.2 = cache := by
  rw [timer_work_outcomes_eq, if_neg (by simp [h])]

theorem flush_outcomes_snd_false {outcome : Nat → WriteOutcome} {files : Files}
    {cache : Cache} {sid : Nat} (hmem : sid ∈ admit_shards cache)
    (hw : (outcome sid).isOk = false) :
    (flush_to_file_outcomes outcome files cache).2 = false := by
  unfold flush_to_file_outcomes
  by_contra hcon
  have hall : (admit_shards cache).all (fun s => (outcome s).isOk) = true := by
    simpa using Bool.of_not_eq_false hcon
  rw [List.all_eq_true] at hall
  have := hall sid hmem
  rw [hw] at this
  cases this

theorem scheduler_step_outcomes_eq (outcome : Nat → WriteOutcome) (now : Int)
    (s : Files × Cache) :
    scheduler_step_outcomes outcome now s =
      (timer_work_outcomes outcome now s.1 s.2).1 := rfl

theorem nonneg_step (now : Int) (s : StoreState) (op : Op) (h : NonNeg s) :
    NonNeg (step now s op) := by
  obtain ⟨hc, hf⟩ := h
  cases op with
  | get qq => exact ⟨cache_nonneg_get hf hc now qq, hf⟩
  | set qq amount => exact ⟨cache_nonneg_set hf hc now qq amount, hf⟩
  | add qq delta => exact ⟨cache_nonneg_add hf hc now qq delta, hf⟩
  | getDate qq => exact ⟨cache_nonneg_get_date hf hc now qq, hf⟩
  | setDate qq ds => exact ⟨cache_nonneg_set_date hf hc now qq ds, hf⟩
  | round writeOk =>
    constructor
    · show CacheNonNeg (timer_work writeOk now s.files s.cache).1.2
      rcases timer_work_cache_cases writeOk now s.files s.cache with hcase | hcase <;> rw [hcase]
      · intro p hp
        exact hc p (mem_evict_subset p hp)
      · exact hc
    · show FilesNonNeg (timer_work writeOk now s.files s.cache).1.1
      rw [timer_work_files]
      exact files_nonneg_flush_to_file writeOk hf hc

theorem nonneg_run : ∀ (ops : List (Int × Op)) (s : StoreState), NonNeg s →
    NonNeg (run s ops) := by
  intro ops
  induction ops with
  | nil =>
    intro s h
    exact h
  | cons top rest ih =>
    intro s h
    exact ih (step top.1 s top.2) (nonneg_step top.1 s top.2 h)

theorem get_nonneg {s : StoreState} (h : NonNeg s) (now qq : Int) :
    0 ≤ (get_currency s.files now qq s.cache).1 := by
  rw [get_currency_fst]
  exact nonneg_of_lookup (cache_nonneg_ensure h.2 h.1 now qq) qq now

/-! ## Helper lemmas for single operations -/

theorem ensure_loaded_of_some {files : Files} {now qq : Int} {cache : Cache} {e : Entry}
    (h : cache.lookup qq = some e) : ensure_loaded files now qq cache = cache := by
  unfold ensure_loaded
  rw [if_pos (by rw [h]; rfl)]

theorem ensure_loaded_nil (files : Files) (now qq : Int) :
    ensure_loaded files now qq [] = load_from_file files now qq [] := by
  unfold ensure_loaded
  rw [if_neg (by simp [List.lookup])]

theorem get_cached {files : Files} {now qq : Int} {cache : Cache} {e : Entry}
    (h : cache.lookup qq = some e) : (get_currency files now qq cache).1 = e.balance := by
  rw [get_currency_fst, ensure_loaded_of_some h, h]
  rfl

theorem get_date_cached {files : Files} {now qq : Int} {cache : Cache} {e : Entry}
    (h : cache.lookup qq = some e) :
    (get_last_daily_date files now qq cache).1 = date_int_to_str e.last_daily := by
  rw [get_last_daily_fst, ensure_loaded_of_some h, h]
  rfl

theorem get_fresh (files : Files) (now qq : Int) :
    (get_currency files now qq []).1 =
      ((read_shard_file (files (shard_id qq))).balances.lookup qq).getD 0 := by
  rw [get_currency_fst, ensure_loaded_nil, lookup_load_self]
  rfl

theorem get_date_fresh (files : Files) (now qq : Int) :
    (get_last_daily_date files now qq []).1 =
      date_int_to_str
        (date_str_to_int ((read_shard_file (files (shard_id qq))).last_daily.lookup qq)) := by
  rw [get_last_daily_fst, ensure_loaded_nil, lookup_load_self]
  rfl

/-- Claim C1, counterexample: the read-through load does **not** clamp the
balance read from the shard file, so a file holding a negative balance is
observed as-is by `get_currency`: with shard 9 storing balance `-5` for
entity 1001, the very first `get_currency(1001)` observes `-5 < 0`. -/
theorem c1_counterexample :
    (get_currency
      (fun sid => if sid = 9 then
        some { balances := [(1001, -5)], last_daily := [] } else none)
      0 1001 []).1 = -5 ∧
    (get_currency
      (fun sid => if sid = 9 then
        some { balances := [(1001, -5)], last_daily := [] } else none)
      0 1001 []).1 < 0 := by
  constructor <;> decide

/-- Claim C1 (amended): `set_currency` clamps its argument and
`add_currency` clamps its result, while the read-through load stores the
file's balance unclamped; hence from any state in which every cached and
every on-disk balance is non-negative, every state reachable by any
sequence of ledger calls and timer rounds is non-negative, and
`get_currency` never observes a negative balance. -/
theorem c1_nonneg_invariant (s : StoreState) (h : NonNeg s) (ops : List (Int × Op))
    (now qq : Int) :
    NonNeg (run s ops) ∧
    0 ≤ (get_currency (run s ops).files now qq (run s ops).cache).1 := by
  have hrun := nonneg_run ops s h
  exact ⟨hrun, get_nonneg hrun now qq⟩

/-- Witness for the amended C1 at a concrete state and operation list. -/
theorem c1_nonneg_invariant_witness :
    NonNeg (run { files := fun _ => none, cache := [] }
      [(0, Op.add 7 100), (1, Op.set 7 (-5)), (2, Op.round (fun _ => true))]) ∧
    0 ≤ (get_currency
      (run { files := fun _ => none, cache := [] }
        [(0, Op.add 7 100), (1, Op.set 7 (-5)), (2, Op.round (fun _ => true))]).files
      3 7
      (run { files := fun _ => none, cache := [] }
        [(0, Op.add 7 100), (1, Op.set 7 (-5)), (2, Op.round (fun _ => true))]).cache).1 :=
  c1_nonneg_invariant { files := fun _ => none, cache := [] }
    ⟨by intro p hp; simp at hp,
     by intro sid q hq; simp [read_shard_file] at hq⟩
    [(0, Op.add 7 100), (1, Op.set 7 (-5)), (2, Op.round (fun _ => true))] 3 7

/-- Claim C2: `add_currency` stores and returns
`max(0, currentBalance + delta)`; in particular a balance of 30 with
delta `-100` yields 0, not `-70`. -/
theorem c2_add_clamps (files : Files) (now qq delta : Int) (cache : Cache) :
    (add_currency files now qq delta cache).1 =
      max 0 ((get_currency files now qq cache).1 + delta) ∧
    ((add_currency files now qq delta cache).2.lookup qq).map Entry.balance =
      some (max 0 ((get_currency files now qq cache).1 + delta)) ∧
    (add_currency (fun _ => none) 0 7 (-100)
      [(7, { balance := 30, last_daily := 0, last_activity := 0 })]).1 = 0 := by
  refine ⟨by rw [get_currency_fst]; rfl, ?_, by decide⟩
  have h2 : (add_currency files now qq delta cache).2.lookup qq =
      some { balance := max 0 ((((ensure_loaded files now qq cache).lookup qq).getD
               { balance := 0, last_daily := 0, last_activity := now }).balance + delta),
             last_daily := (((ensure_loaded files now qq cache).lookup qq).getD
               { balance := 0, last_daily := 0, last_activity := now }).last_daily,
             last_activity := now } :=
    lookup_dictSet_self _ _ _
  rw [h2, get_currency_fst]
  rfl

/-- Claim C3: after a successful flush of the shard of a cached entity,
a fresh instance (empty cache) pointed at the written files returns the
pre-flush balance and the pre-flush claim date for that entity. -/
theorem c3_flush_roundtrip (files : Files) (cache : Cache) (now1 now2 qq : Int)
    (e : Entry) (hq : cache.lookup qq = some e) (hnd : (cache.map Prod.fst).Nodup) :
    (get_currency (write_shard files (shard_id qq) (shard_entries cache (shard_id qq)))
        now2 qq []).1 =
      (get_currency files now1 qq cache).1 ∧
    (get_last_daily_date (write_shard files (shard_id qq) (shard_entries cache (shard_id qq)))
        now2 qq []).1 =
      (get_last_daily_date files now1 qq cache).1 := by
  have hse : (shard_entries cache (shard_id qq)).lookup qq = some e :=
    lookup_shard_entries hq
  have hsnd : ((shard_entries cache (shard_id qq)).map Prod.fst).Nodup :=
    keys_filter_nodup _ hnd
  have hworker := worker_overlay (shard_entries cache (shard_id qq))
    (read_shard_file (files (shard_id qq))) qq e hsnd hse
  have hfile : (write_shard files (shard_id qq) (shard_entries cache (shard_id qq)))
      (shard_id qq) =
      some (write_one_shard_worker (shard_entries cache (shard_id qq))
        (read_shard_file (files (shard_id qq)))) := by
    unfold write_shard update_files
    rw [if_pos rfl]
  constructor
  · rw [get_fresh, get_cached hq, hfile]
    show ((write_one_shard_worker (shard_entries cache (shard_id qq))
      (read_shard_file (files (shard_id qq)))).balances.lookup qq).getD 0 = e.balance
    rw [hworker.1]
    rfl
  · rw [get_date_fresh, get_date_cached hq, hfile]
    show date_int_to_str (date_str_to_int
        ((write_one_shard_worker (shard_entries cache (shard_id qq))
          (read_shard_file (files (shard_id qq)))).last_daily.lookup qq)) =
      date_int_to_str e.last_daily
    rw [hworker.2]
    by_cases hld : e.last_daily = 0
    · rw [hld]
      rfl
    · rw [date_roundtrip_int hld]

/-- Witness for C3: entity 1001 with balance 100 and claim date
`2024-01-01` (encoded 20240101) survives flush plus fresh reload. -/
theorem c3_flush_roundtrip_witness :
    (get_currency (write_shard (fun _ => none) (shard_id 1001)
        (shard_entries [(1001, { balance := 100, last_daily := 20240101, last_activity := 0 })]
          (shard_id 1001))) 5 1001 []).1 =
      (get_currency (fun _ => none) 4 1001
        [(1001, { balance := 100, last_daily := 20240101, last_activity := 0 })]).1 ∧
    (get_last_daily_date (write_shard (fun _ => none) (shard_id 1001)
        (shard_entries [(1001, { balance := 100, last_daily := 20240101, last_activity := 0 })]
          (shard_id 1001))) 5 1001 []).1 =
      (get_last_daily_date (fun _ => none) 4 1001
        [(1001, { balance := 100, last_daily := 20240101, last_activity := 0 })]).1 :=
  c3_flush_roundtrip (fun _ => none)
    [(1001, { balance := 100, last_daily := 20240101, last_activity := 0 })] 4 5 1001
    { balance := 100, last_daily := 20240101, last_activity := 0 }
    (by decide) (by decide)

/-- Claim C4: `_write_one_shard_worker` merges instead of replacing: an
on-disk entity not among the flushed entries keeps its balance and claim
date; a flushed entity is overlaid, and when its claim date is unset
(encoded 0) the key is removed from the written `last_daily` map rather
than stored as a sentinel. -/
theorem c4_write_merges (data : ShardData) (entries : Cache) (qq : Int) :
    (entries.lookup qq = none →
      (write_one_shard_worker entries data).balances.lookup qq = data.balances.lookup qq ∧
      (write_one_shard_worker entries data).last_daily.lookup qq =
        data.last_daily.lookup qq) ∧
    (∀ e : Entry, (entries.map Prod.fst).Nodup → entries.lookup qq = some e →
      (write_one_shard_worker entries data).balances.lookup qq = some e.balance ∧
      (write_one_shard_worker entries data).last_daily.lookup qq =
        date_int_to_str e.last_daily ∧
      (e.last_daily = 0 →
        (write_one_shard_worker entries data).last_daily.lookup qq = none)) := by
  constructor
  · intro h
    exact worker_frame entries data qq (lookup_eq_none_iff.mp h)
  · intro e hnd h
    obtain ⟨hb, hd⟩ := worker_overlay entries data qq e hnd h
    refine ⟨hb, hd, fun h0 => ?_⟩
    rw [hd, h0]
    rfl

/-- Witness for C4: on-disk entity 1 is untouched by a flush of entity 2,
and entity 2 with unset claim date is written without a date key. -/
theorem c4_write_merges_witness :
    ((write_one_shard_worker [(2, { balance := 9, last_daily := 0, last_activity := 0 })]
        { balances := [(1, 5), (2, 7)], last_daily := [(1, "2024-01-01".toList)] }).balances.lookup 1 =
      ({ balances := [(1, 5), (2, 7)], last_daily := [(1, "2024-01-01".toList)] } : ShardData).balances.lookup 1 ∧
      (write_one_shard_worker [(2, { balance := 9, last_daily := 0, last_activity := 0 })]
        { balances := [(1, 5), (2, 7)], last_daily := [(1, "2024-01-01".toList)] }).last_daily.lookup 1 =
      ({ balances := [(1, 5), (2, 7)], last_daily := [(1, "2024-01-01".toList)] } : ShardData).last_daily.lookup 1) ∧
    ((write_one_shard_worker [(2, { balance := 9, last_daily := 0, last_activity := 0 })]
        { balances := [(1, 5), (2, 7)], last_daily := [(1, "2024-01-01".toList)] }).balances.lookup 2 =
        some (9 : Int) ∧
      (write_one_shard_worker [(2, { balance := 9, last_daily := 0, last_activity := 0 })]
        { balances := [(1, 5), (2, 7)], last_daily := [(1, "2024-01-01".toList)] }).last_daily.lookup 2 =
        date_int_to_str 0 ∧
      ((0 : Nat) = 0 →
        (write_one_shard_worker [(2, { balance := 9, last_daily := 0, last_activity := 0 })]
          { balances := [(1, 5), (2, 7)], last_daily := [(1, "2024-01-01".toList)] }).last_daily.lookup 2 =
          none)) :=
  ⟨(c4_write_merges
      { balances := [(1, 5), (2, 7)], last_daily := [(1, "2024-01-01".toList)] }
      [(2, { balance := 9, last_daily := 0, last_activity := 0 })] 1).1 (by decide),
   (c4_write_merges
      { balances := [(1, 5), (2, 7)], last_daily := [(1, "2024-01-01".toList)] }
      [(2, { balance := 9, last_daily := 0, last_activity := 0 })] 2).2
      { balance := 9, last_daily := 0, last_activity := 0 } (by decide) (by decide)⟩

/-- Claim C5: flush admission walks the dirty shards in ascending index;
the admitted set is a take-initial segment of that order, the first dirty
shard is always admitted, whenever at least two shards are admitted the
capped estimate total stays within the per-round byte budget, and the
files of shards that were not admitted are untouched by the round. -/
theorem c5_flush_admission (cache : Cache) (files : Files) (writeOk : Nat → Bool) :
    (∃ k, admit_shards cache = (dirty_shards cache).take k) ∧
    (∀ s0 rest, dirty_shards cache = s0 :: rest →
      ∃ tl, admit_shards cache = s0 :: tl) ∧
    (2 ≤ (admit_shards cache).length →
      ((admit_shards cache).map
        (fun sid => est_bytes (shard_entries cache sid).length)).sum ≤
          MAX_BYTES_PER_ROUND) ∧
    (∀ sid, sid ∉ admit_shards cache →
      (flush_to_file writeOk files cache).1 sid = files sid) := by
  refine ⟨admit_shards_take cache, ?_, fun h => admitted_sum_le h,
    fun sid h => flush_not_admitted writeOk h⟩
  intro s0 rest h
  exact ⟨_, admit_first cache h⟩

/-- Witness for C5 at a concrete two-shard cache. -/
theorem c5_flush_admission_witness :
    (∃ tl, admit_shards [((0 : Int), { balance := 1, last_daily := 0, last_activity := 0 }),
        (1, { balance := 2, last_daily := 0, last_activity := 0 })] = 0 :: tl) ∧
    ((admit_shards [((0 : Int), { balance := 1, last_daily := 0, last_activity := 0 }),
        (1, { balance := 2, last_daily := 0, last_activity := 0 })]).map
      (fun sid => est_bytes (shard_entries
        [((0 : Int), { balance := 1, last_daily := 0, last_activity := 0 }),
         (1, { balance := 2, last_daily := 0, last_activity := 0 })] sid).length)).sum ≤
        MAX_BYTES_PER_ROUND ∧
    (flush_to_file (fun _ => true) (fun _ => none)
      [((0 : Int), { balance := 1, last_daily := 0, last_activity := 0 }),
       (1, { balance := 2, last_daily := 0, last_activity := 0 })]).1 5 =
      (fun _ => none : Files) 5 :=
  ⟨(c5_flush_admission
      [((0 : Int), { balance := 1, last_daily := 0, last_activity := 0 }),
       (1, { balance := 2, last_daily := 0, last_activity := 0 })] (fun _ => none)
      (fun _ => true)).2.1 0 [1] (by decide),
   (c5_flush_admission
      [((0 : Int), { balance := 1, last_daily := 0, last_activity := 0 }),
       (1, { balance := 2, last_daily := 0, last_activity := 0 })] (fun _ => none)
      (fun _ => true)).2.2.1 (by decide),
   (c5_flush_admission
      [((0 : Int), { balance := 1, last_daily := 0, last_activity := 0 }),
       (1, { balance := 2, last_daily := 0, last_activity := 0 })] (fun _ => none)
      (fun _ => true)).2.2.2 5 (by decide)⟩


/-- Claim C6: at the JSON level, a missing file and an undecodable file
both yield the empty `balances` and `last_daily` maps without raising,
and a first access to an entity absent from its (missing) shard file
yields balance 0 and no claim date; however a file whose content is valid
JSON but not an object (here the array `[]`) makes `setdefault` raise
`AttributeError`, which escapes `_read_shard_file` — contradicting
"never raises to the caller". -/
theorem c6_read_malformed :
    read_shard_file_json JFile.missing =
      Except.ok (Json.obj [("balances", Json.obj []), ("last_daily", Json.obj [])]) ∧
    read_shard_file_json JFile.badJson =
      Except.ok (Json.obj [("balances", Json.obj []), ("last_daily", Json.obj [])]) ∧
    read_shard_file_json (JFile.good (Json.arr [])) =
      Except.error PyErr.attributeError ∧
    (get_currency (fun _ => none) 0 1001 []).1 = 0 ∧
    (get_last_daily_date (fun _ => none) 0 1001 []).1 = none := by
  refine ⟨rfl, rfl, rfl, by decide, rfl⟩

/-- Claim C7: the eviction pass keeps only entries whose idle time is
below the TTL, leaves at most `MAX_CACHE_SIZE` entries, and every entry
dropped by the cap pass (still fresh but removed) was no more recently
active than every surviving entry. -/
theorem c7_eviction (now : Int) (cache : Cache) (hnd : (cache.map Prod.fst).Nodup) :
    (∀ p ∈ evict_inactive now cache, now - p.2.last_activity < INACTIVE_TTL) ∧
    (evict_inactive now cache).length ≤ MAX_CACHE_SIZE ∧
    (∀ p, p ∈ cache → p ∉ evict_inactive now cache →
      now - p.2.last_activity < INACTIVE_TTL →
      ∀ q ∈ evict_inactive now cache, p.2.last_activity ≤ q.2.last_activity) :=
  ⟨evict_fresh now cache, evict_size now cache hnd, evict_least now cache hnd⟩

/-- Witness for C7 at a concrete two-entry cache. -/
theorem c7_eviction_witness :
    (∀ p ∈ evict_inactive 1000
        [((1 : Int), { balance := 5, last_daily := 0, last_activity := 800 }),
         (2, { balance := 3, last_daily := 0, last_activity := 0 })],
      1000 - p.2.last_activity < INACTIVE_TTL) ∧
    (evict_inactive 1000
        [((1 : Int), { balance := 5, last_daily := 0, last_activity := 800 }),
         (2, { balance := 3, last_daily := 0, last_activity := 0 })]).length ≤
      MAX_CACHE_SIZE ∧
    (∀ p, p ∈ [((1 : Int), { balance := 5, last_daily := 0, last_activity := 800 }),
         (2, { balance := 3, last_daily := 0, last_activity := 0 })] →
      p ∉ evict_inactive 1000
        [((1 : Int), { balance := 5, last_daily := 0, last_activity := 800 }),
         (2, { balance := 3, last_daily := 0, last_activity := 0 })] →
      1000 - p.2.last_activity < INACTIVE_TTL →
      ∀ q ∈ evict_inactive 1000
        [((1 : Int), { balance := 5, last_daily := 0, last_activity := 800 }),
         (2, { balance := 3, last_daily := 0, last_activity := 0 })],
        p.2.last_activity ≤ q.2.last_activity) :=
  c7_eviction 1000
    [((1 : Int), { balance := 5, last_daily := 0, last_activity := 800 }),
     (2, { balance := 3, last_daily := 0, last_activity := 0 })] (by decide)

/-- Claim C8, counterexample: a flush worker failure aborts the remainder
of the round — the eviction pass is skipped.  With one TTL-expired entry
and a worker whose failed attempt leaves a truncated (undecodable) file,
the entry is still cached after `_timer_work`, whereas the same round
with a succeeding worker evicts it. -/
theorem c8_counterexample :
    ((timer_work_outcomes (fun _ => WriteOutcome.failed none) 1000 (fun _ => none)
        [(0, { balance := 5, last_daily := 0, last_activity := 0 })]).1.2.lookup 0).isSome =
      true ∧
    (timer_work_outcomes (fun _ => WriteOutcome.ok) 1000 (fun _ => none)
        [(0, { balance := 5, last_daily := 0, last_activity := 0 })]).1.2.lookup 0 = none := by
  constructor <;> decide

/-- Claim C8 (amended): a failing shard worker does not cancel sibling
shard flushes — every admitted shard whose own worker succeeds gets its
merged file written, whatever file states the failing workers leave
behind; the exception is swallowed by the scheduler loop, whose next
state is well-defined with the cache unchanged, so the scheduler
neither crashes nor stops and no ledger API caller sees the error; and
the failing shard remains a flush candidate next round.  However the
re-raised error aborts the remainder of the round: the eviction pass is
skipped (see the counterexample).  Nothing is claimed about the failed
shard's own file, which the truncate-in-place write leaves in an
indeterminate state. -/
theorem c8_failure_isolation (outcome : Nat → WriteOutcome) (files : Files)
    (cache : Cache) (now : Int) (sid : Nat) :
    (sid ∈ admit_shards cache → outcome sid = WriteOutcome.ok →
      (flush_to_file_outcomes outcome files cache).1 sid =
        some (write_one_shard_worker (shard_entries cache sid)
          (read_shard_file (files sid)))) ∧
    (sid ∈ admit_shards cache → (outcome sid).isOk = false →
      (scheduler_step_outcomes outcome now (files, cache)).2 = cache ∧
      sid ∈ dirty_shards ((scheduler_step_outcomes outcome now (files, cache)).2)) := by
  refine ⟨fun h hok => flush_outcomes_admitted_ok h hok, ?_⟩
  intro hmem hw
  have hfail : (flush_to_file_outcomes outcome files cache).2 = false :=
    flush_outcomes_snd_false hmem hw
  have hcache : (scheduler_step_outcomes outcome now (files, cache)).2 = cache := by
    rw [scheduler_step_outcomes_eq]
    exact timer_work_outcomes_cache_fail now hfail
  refine ⟨hcache, ?_⟩
  rw [hcache]
  obtain ⟨k, hk⟩ := admit_shards_take cache
  rw [hk] at hmem
  exact List.mem_of_mem_take hmem

/-- Witness for the amended C8: shard 0 succeeds while shard 1 fails
(leaving a truncated file) in the same round. -/
theorem c8_failure_isolation_witness :
    ((flush_to_file_outcomes
        (fun s => if s = 0 then WriteOutcome.ok else WriteOutcome.failed none)
        (fun _ => none)
        [((0 : Int), { balance := 1, last_daily := 0, last_activity := 0 }),
         (1, { balance := 2, last_daily := 0, last_activity := 0 })]).1 0 =
      some (write_one_shard_worker (shard_entries
          [((0 : Int), { balance := 1, last_daily := 0, last_activity := 0 }),
           (1, { balance := 2, last_daily := 0, last_activity := 0 })] 0)
        (read_shard_file ((fun _ => none : Files) 0)))) ∧
    ((scheduler_step_outcomes
        (fun s => if s = 0 then WriteOutcome.ok else WriteOutcome.failed none) 9
        ((fun _ => none : Files),
         [((0 : Int), { balance := 1, last_daily := 0, last_activity := 0 }),
          (1, { balance := 2, last_daily := 0, last_activity := 0 })])).2 =
      [((0 : Int), { balance := 1, last_daily := 0, last_activity := 0 }),
       (1, { balance := 2, last_daily := 0, last_activity := 0 })] ∧
      1 ∈ dirty_shards ((scheduler_step_outcomes
        (fun s => if s = 0 then WriteOutcome.ok else WriteOutcome.failed none) 9
        ((fun _ => none : Files),
         [((0 : Int), { balance := 1, last_daily := 0, last_activity := 0 }),
          (1, { balance := 2, last_daily := 0, last_activity := 0 })])).2)) :=
  ⟨(c8_failure_isolation
      (fun s => if s = 0 then WriteOutcome.ok else WriteOutcome.failed none)
      (fun _ => none)
      [((0 : Int), { balance := 1, last_daily := 0, last_activity := 0 }),
       (1, { balance := 2, last_daily := 0, last_activity := 0 })] 9 0).1
      (by decide) (by decide),
   (c8_failure_isolation
      (fun s => if s = 0 then WriteOutcome.ok else WriteOutcome.failed none)
      (fun _ => none)
      [((0 : Int), { balance := 1, last_daily := 0, last_activity := 0 }),
       (1, { balance := 2, last_daily := 0, last_activity := 0 })] 9 1).2
      (by decide) (by decide)⟩

/-- Claim C9, counterexample: a non-positive entity id is not rejected:
`get_currency(-5)` on an empty cache succeeds, returns 0, and creates a
cache entry for `-5` — cache state is created, not rejected at the
boundary. -/
theorem c9_counterexample :
    (get_currency (fun _ => none) 0 (-5) []).2.lookup (-5) =
      some { balance := 0, last_daily := 0, last_activity := 0 } ∧
    (get_currency (fun _ => none) 0 (-5) []).1 = 0 := by
  constructor <;> decide

/-- Claim C9 (amended): no entity-id validation exists at the API
boundary; every integer id — non-positive included — is accepted by all
five public operations, each of which creates or keeps a cache entry for
that id. -/
theorem c9_no_validation (files : Files) (now qq amount delta : Int)
    (ds : List Char) (cache : Cache) :
    ((get_currency files now qq cache).2.lookup qq).isSome = true ∧
    ((set_currency files now qq amount cache).lookup qq).isSome = true ∧
    ((add_currency files now qq delta cache).2.lookup qq).isSome = true ∧
    ((get_last_daily_date files now qq cache).2.lookup qq).isSome = true ∧
    ((set_last_daily_date files now qq ds cache).lookup qq).isSome = true := by
  have htouch : ((touch now qq (ensure_loaded files now qq cache)).lookup qq).isSome = true := by
    rw [lookup_touch_self]
    have h := lookup_ensure_isSome files now qq cache
    cases hl : (ensure_loaded files now qq cache).lookup qq with
    | none =>
      rw [hl] at h
      cases h
    | some e => rfl
  refine ⟨htouch, ?_, ?_, htouch, ?_⟩
  · show ((dictSet (ensure_loaded files now qq cache) qq _).lookup qq).isSome = true
    rw [lookup_dictSet_self]
    rfl
  · show ((dictSet (ensure_loaded files now qq cache) qq _).lookup qq).isSome = true
    rw [lookup_dictSet_self]
    rfl
  · show ((dictSet (ensure_loaded files now qq cache) qq _).lookup qq).isSome = true
    rw [lookup_dictSet_self]
    rfl

end Currency
